import Mathlib

/-!
Verification development for the q-ball in-process asynchronous work queue.

The engine (`QBall` in the TypeScript source, part_001) is embedded as a
small-step state machine.  JavaScript runs user code atomically between
`await` suspension points, so every synchronous stretch of the source is one
transition of the machine; the suspension points (awaiting the processor,
the worker's 1ms sleep, and the retry `setTimeout`s) become schedulable
tasks, and a run is driven by an explicit schedule choosing which pending
task fires next.  This nondeterministic scheduling over-approximates the
JavaScript event loop, so universally quantified theorems below cover every
real interleaving, while concrete counterexample schedules are chosen to be
realizable orderings of the event loop.
-/

namespace QBall

/-- QBallMessagePacket (part_001 lines 38-41): a queued message with its
attempt counter.  The `id` field models JavaScript object identity of the
packet (the source mutates one shared packet object per item), so that an
item can be tracked across queue / in-flight / retry-holding locations. -/
structure Pkt (M : Type) where
  id : Nat
  message : M
  attempt : Nat
  deriving Repr, DecidableEq

/-- Published events (the five emitters, part_001 lines 278-304), plus a
ghost `dispatched` entry recorded at the exact point the user processor is
invoked (line 336, directly after `messagePacket.attempt++` on line 330).
The ghost entry publishes nothing; it only instruments processor
invocations so that dispatch counts are statable. -/
inductive Ev (M E D : Type) where
  | started
  | finished
  | processed (d : D)
  | error (e : E)
  | retry (m : M) (attempt : Nat) (delay : Nat)
  | dispatched (id : Nat) (m : M) (attempt : Nat)
  deriving Repr, DecidableEq

/-- Program counter of one invocation of `workerObject.start` (lines
311-327).  `ready` is a loop instance about to run its next iteration
(equivalently: parked on the 1ms sleep of line 323-325); `awaitingProc p`
is parked at `await processor(...)` (line 336) holding the in-flight
packet. -/
inductive FiberPC (M : Type) where
  | ready
  | awaitingProc (p : Pkt M)
  deriving Repr, DecidableEq

/-- One live invocation of `workerObject.start`.  The source can start a
second concurrent loop for the same worker object (line 390 checks only
`isWorking`), so fibers are kept in a list and several may share a
`worker` index. -/
structure Fiber (M : Type) where
  worker : Nat
  pc : FiberPC M
  deriving Repr, DecidableEq

/-- Pending `setTimeout` callbacks of the retry branch (lines 355-361):
`retryAppend` is the outer timeout (pushes the packet back), `retryResume`
the inner one (restarts processing, clears the awaiting-retry flag). -/
inductive Timer (M : Type) where
  | retryAppend (p : Pkt M) (w : Nat)
  | retryResume (w : Nat)
  deriving Repr, DecidableEq

/-- Engine configuration: the processor plus the options of part_001 lines
215-234 that affect control flow.  The processor is modelled as a
deterministic function from message to success data or thrown error. -/
structure Cfg (M E D : Type) where
  proc : M → Except E D
  workers : Nat
  redriveCount : Nat
  redriveDelay : Nat → M → Nat
  stopOnError : Bool
  autoStart : Bool
  hasDlq : Bool

/-- Mutable engine state.  `queue` is `messagePackets`, `working` and
`awaitRetry` the per-worker `isWorking` / `isAwaitingRetry` flags, `fibers`
the live worker-loop invocations, `timers` the pending retry timeouts,
`events` the log of published events (newest first), `dlq` the queue of the
dead-letter engine as filled by its `add`, and `nextId` the next fresh
packet identity. -/
structure St (M E D : Type) where
  queue : List (Pkt M)
  isProcessing : Bool
  forceStopped : Bool
  working : List Bool
  awaitRetry : List Bool
  fibers : List (Fiber M)
  timers : List (Timer M)
  events : List (Ev M E D)
  dlq : List (Pkt M)
  nextId : Nat
  deriving Repr, DecidableEq

variable {M E D : Type}

/-- isAwaitingRetry (lines 257-261): some worker has its flag set. -/
def anyAwaitingRetry (s : St M E D) : Bool :=
  s.awaitRetry.any (fun b => b)

/-- hasMessages (lines 253-255). -/
def hasMessages (s : St M E D) : Bool :=
  !s.queue.isEmpty

/-- emitters.started (lines 294-298); no internal listener is subscribed. -/
def emitStarted (s : St M E D) : St M E D :=
  { s with events := .started :: s.events }

/-- emitters.finished (lines 284-288) including the internal listener of
lines 406-408 which sets `isProcessing` to false. -/
def emitFinished (s : St M E D) : St M E D :=
  { s with events := .finished :: s.events, isProcessing := false }

/-- emitters.processed (lines 299-303) including the internal finished
check listener of lines 395-399: if the queue is empty and no worker is
awaiting a retry, `finished` is published. -/
def emitProcessed (d : D) (s : St M E D) : St M E D :=
  let s1 : St M E D := { s with events := .processed d :: s.events }
  if !hasMessages s1 && !anyAwaitingRetry s1 then emitFinished s1 else s1

/-- emitters.error (lines 279-283) including the internal stop-on-error
listener of lines 400-405: with `stopOnError` it sets `forceStopped` and
publishes `finished`. -/
def emitError (cfg : Cfg M E D) (e : E) (s : St M E D) : St M E D :=
  let s1 : St M E D := { s with events := .error e :: s.events }
  if cfg.stopOnError then emitFinished { s1 with forceStopped := true } else s1

/-- emitters.retry (lines 289-293); no internal listener is subscribed. -/
def emitRetry (m : M) (attempt delay : Nat) (s : St M E D) : St M E D :=
  { s with events := .retry m attempt delay :: s.events }

/-- dlq.add (line 365 calling line 429-438 of the dead-letter instance):
the original message is wrapped into a fresh packet with attempt 0 and
appended to the dead-letter engine's queue. -/
def dlqAdd (m : M) (s : St M E D) : St M E D :=
  { s with dlq := s.dlq ++ [⟨s.nextId, m, 0⟩], nextId := s.nextId + 1 }

/-- The synchronous opening of `workerObject.process` (lines 329-336 up to
the processor call): set `isWorking`, increment the packet's attempt, and
invoke the processor (recorded by the ghost `dispatched` event).  Returns
the state and the incremented in-flight packet. -/
def dispatch (s : St M E D) (w : Nat) (p : Pkt M) : St M E D × Pkt M :=
  let p1 : Pkt M := { p with attempt := p.attempt + 1 }
  ({ s with working := s.working.set w true,
            events := .dispatched p1.id p1.message p1.attempt :: s.events },
   p1)

/-- The continuation of `workerObject.process` after the processor settles
(lines 336-369): on success publish `processed`; on failure either take the
retry branch (`attempt < redriveCount`, lines 344-361: publish `retry`,
mark the worker awaiting retry, schedule the outer timeout) or the terminal
branch (lines 362-367: publish `error`, forward to the dead-letter engine
if configured).  Finally clear `isWorking` (line 369). -/
def resolve (cfg : Cfg M E D) (s : St M E D) (w : Nat) (p : Pkt M) :
    St M E D :=
  let s1 : St M E D :=
    match cfg.proc p.message with
    | .ok d => emitProcessed d s
    | .error e =>
      if p.attempt < cfg.redriveCount then
        let delay := cfg.redriveDelay p.attempt p.message
        let s2 := emitRetry p.message p.attempt delay s
        let s3 : St M E D := { s2 with awaitRetry := s2.awaitRetry.set w true }
        { s3 with timers := s3.timers ++ [.retryAppend p w] }
      else
        let s2 := emitError cfg e s
        if cfg.hasDlq then dlqAdd p.message s2 else s2
  { s1 with working := s1.working.set w false }

/-- One iteration of the `workerObject.start` loop (lines 313-326), run
atomically from the condition check up to the next suspension point.
Returns the updated state and the fiber's continuation: `none` when the
loop condition fails and the loop exits, `awaitingProc` when an item was
taken and the processor is now pending, `ready` when the queue was empty
(after the possible `finished` publication of lines 318-321) and the fiber
parks on its 1ms sleep. -/
def fiberIter (s : St M E D) (w : Nat) : St M E D × Option (Fiber M) :=
  if s.isProcessing || anyAwaitingRetry s then
    match s.queue with
    | p :: rest =>
      let r := dispatch { s with queue := rest } w p
      (r.1, some ⟨w, .awaitingProc r.2⟩)
    | [] =>
      let s1 :=
        if s.isProcessing && !anyAwaitingRetry s then emitFinished s else s
      (s1, some ⟨w, .ready⟩)
  else (s, none)

/-- Run `fiberIter` for a freshly spawned loop invocation and append its
continuation (if the loop did not exit immediately) to the live fibers. -/
def spawnFiber (s : St M E D) (w : Nat) : St M E D :=
  let r := fiberIter s w
  match r.2 with
  | some f => { r.1 with fibers := r.1.fibers ++ [f] }
  | none => r.1

/-- The worker-starting loop of `startProcessing` (lines 388-392): for each
worker index in order, while the queue is nonempty, start a new loop
invocation for every worker whose `isWorking` flag is clear.  The first
iteration of a spawned loop runs synchronously inside the call. -/
def spawnLoop (ws : List Nat) (s : St M E D) : St M E D :=
  match ws with
  | [] => s
  | w :: rest =>
    if s.queue.isEmpty then s
    else if s.working.getD w false then spawnLoop rest s
    else spawnLoop rest (spawnFiber s w)

/-- startProcessing (lines 375-393): no-op when already processing with no
worker awaiting retry; otherwise publish `started`, finish immediately on
an empty queue, else reset `forceStopped`, set `isProcessing`, and start
workers. -/
def startProcessing (cfg : Cfg M E D) (s : St M E D) : St M E D :=
  if s.isProcessing && !anyAwaitingRetry s then s
  else
    let s1 := emitStarted s
    if !hasMessages s1 then emitFinished s1
    else
      spawnLoop (List.range cfg.workers)
        { s1 with forceStopped := false, isProcessing := true }

/-- qBallObject.add (lines 429-438): append a fresh packet with attempt 0,
then start processing when `autoStart` is set. -/
def add (cfg : Cfg M E D) (m : M) (s : St M E D) : St M E D :=
  let s1 : St M E D :=
    { s with queue := s.queue ++ [⟨s.nextId, m, 0⟩], nextId := s.nextId + 1 }
  if cfg.autoStart then startProcessing cfg s1 else s1

/-- qBallObject.start (lines 439-442). -/
def start (cfg : Cfg M E D) (s : St M E D) : St M E D :=
  startProcessing cfg s

/-- qBallObject.stop (lines 443-450): clear `isProcessing`; publish
`finished` when the queue is empty. -/
def stop (s : St M E D) : St M E D :=
  let s1 : St M E D := { s with isProcessing := false }
  if !hasMessages s1 then emitFinished s1 else s1

/-- qBallObject.clear (lines 459-464): drop all pending packets, clear
`isProcessing`, publish `finished` unconditionally. -/
def clear (s : St M E D) : St M E D :=
  emitFinished { s with queue := [], isProcessing := false }

/-- Fire one pending retry timeout.  The outer timeout (lines 355-361)
pushes the held packet onto the queue tail and schedules the inner one;
the inner timeout (lines 357-360) calls `startProcessing` and then clears
the worker's awaiting-retry flag. -/
def runTimer (cfg : Cfg M E D) (s : St M E D) : Timer M → St M E D
  | .retryAppend p w =>
    { s with queue := s.queue ++ [p], timers := s.timers ++ [.retryResume w] }
  | .retryResume w =>
    let s1 := startProcessing cfg s
    { s1 with awaitRetry := s1.awaitRetry.set w false }

/-- A schedulable pending task: waking the `j`-th live fiber (either its
sleep elapsing or its processor settling), or firing the `j`-th pending
timer. -/
inductive Task where
  | fiber (j : Nat)
  | timer (j : Nat)
  deriving Repr, DecidableEq

/-- Wake the `j`-th live fiber.  A `ready` fiber runs one loop iteration;
an `awaitingProc` fiber runs the processor continuation and then parks on
its sleep.  Out-of-range indices are no-ops. -/
def runFiberTask (cfg : Cfg M E D) (s : St M E D) (j : Nat) : St M E D :=
  match s.fibers.get? j with
  | none => s
  | some f =>
    let s0 : St M E D := { s with fibers := s.fibers.eraseIdx j }
    match f.pc with
    | .ready => spawnFiber s0 f.worker
    | .awaitingProc p =>
      let s1 := resolve cfg s0 f.worker p
      { s1 with fibers := s1.fibers ++ [⟨f.worker, .ready⟩] }

/-- Fire the `j`-th pending timer; out-of-range indices are no-ops. -/
def runTimerTask (cfg : Cfg M E D) (s : St M E D) (j : Nat) : St M E D :=
  match s.timers.get? j with
  | none => s
  | some t => runTimer cfg { s with timers := s.timers.eraseIdx j } t

/-- One scheduler step. -/
def step (cfg : Cfg M E D) (s : St M E D) : Task → St M E D
  | .fiber j => runFiberTask cfg s j
  | .timer j => runTimerTask cfg s j

/-- Drive the engine along an explicit schedule. -/
def runTasks (cfg : Cfg M E D) (s : St M E D) (sched : List Task) : St M E D :=
  sched.foldl (step cfg) s

/-- Seed packets for the initial `messages` option (lines 246-251):
attempt 0, identities `i, i+1, ...` in order. -/
def seedPkts (msgs : List M) (i : Nat) : List (Pkt M) :=
  match msgs with
  | [] => []
  | m :: rest => ⟨i, m, 0⟩ :: seedPkts rest (i + 1)

/-- Engine state right after the `QBall` constructor returns (lines
215-427): seeded queue, all flags clear, and — after the internal listeners
are registered — the auto-start of line 424-426. -/
def init (cfg : Cfg M E D) (msgs : List M) : St M E D :=
  let s : St M E D :=
    { queue := seedPkts msgs 0
      isProcessing := false
      forceStopped := false
      working := List.replicate cfg.workers false
      awaitRetry := List.replicate cfg.workers false
      fibers := []
      timers := []
      events := []
      dlq := []
      nextId := msgs.length }
  if cfg.autoStart && hasMessages s then startProcessing cfg s else s

/-- No pending task of any kind: no live worker-loop invocation and no
pending timer.  A quiescent state can make no further transition. -/
def quiescent (s : St M E D) : Prop :=
  s.fibers = [] ∧ s.timers = []

/-- Number of `finished` publications in the log. -/
def countFinished (l : List (Ev M E D)) : Nat :=
  l.countP (fun e => match e with | .finished => true | _ => false)

/-- Number of `processed` publications in the log. -/
def countProcessed (l : List (Ev M E D)) : Nat :=
  l.countP (fun e => match e with | .processed _ => true | _ => false)

/-- Number of processor invocations recorded in the log. -/
def countDispatched (l : List (Ev M E D)) : Nat :=
  l.countP (fun e => match e with | .dispatched _ _ _ => true | _ => false)

/-- Number of processor invocations on the packet with identity `i`. -/
def countDispatchedId (i : Nat) (l : List (Ev M E D)) : Nat :=
  l.countP (fun e => match e with | .dispatched j _ _ => j == i | _ => false)

/-- Number of `error` publications carrying the error value `e0`. -/
def countErrorAt [BEq E] (e0 : E) (l : List (Ev M E D)) : Nat :=
  l.countP (fun e => match e with | .error e1 => e1 == e0 | _ => false)

/-- The packet a fiber holds, when it is parked at the processor. -/
def fiberPkt : Fiber M → Option (Pkt M)
  | ⟨_, .awaitingProc p⟩ => some p
  | ⟨_, .ready⟩ => none

/-- The packet a pending timer holds, for the retry-delay timeout. -/
def timerPkt : Timer M → Option (Pkt M)
  | .retryAppend p _ => some p
  | .retryResume _ => none

/-- Packets currently in flight: held by a fiber parked at the processor. -/
def inflightPkts (s : St M E D) : List (Pkt M) :=
  s.fibers.filterMap fiberPkt

/-- Number of packets currently in flight. -/
def inflightCount (s : St M E D) : Nat :=
  (inflightPkts s).length

/-- Packets currently held by a pending retry-delay timeout. -/
def timerPkts (s : St M E D) : List (Pkt M) :=
  s.timers.filterMap timerPkt

/-- Every live packet: pending in the queue, in flight with a worker, held
by a retry delay, or sitting in the dead-letter queue. -/
def livePkts (s : St M E D) : List (Pkt M) :=
  s.queue ++ inflightPkts s ++ timerPkts s ++ s.dlq

/-- Run invariant for a drain cycle with an always-succeeding processor
over `N` seeded items and no external operation after start: no retry
timer or awaiting-retry flag ever arises; once `isProcessing` falls the
queue is empty and `finished` has been published; the `processed` count
plus pending plus in-flight items always total `N`; dispatches match
`processed` plus in-flight; and fibers exist while processing. -/
def alwaysOkInv (N : Nat) (s : St M E D) : Prop :=
  s.timers = [] ∧
  anyAwaitingRetry s = false ∧
  (s.isProcessing = false → s.queue = []) ∧
  countProcessed s.events + s.queue.length + inflightCount s = N ∧
  countDispatched s.events = countProcessed s.events + inflightCount s ∧
  (s.isProcessing = true → s.fibers ≠ []) ∧
  (s.isProcessing = false → 1 ≤ countFinished s.events)

/-- The attempt-counter ledger over the four packet locations (queue `Q`,
in flight `I`, retry-held `T`, dead-letter `L`), the event log `ev` and the
allocation bound `n`: every live packet's `attempt` equals the number of
processor dispatches recorded for its identity; all live identities are
below `n` and pairwise distinct; no dispatch is recorded for an
unallocated identity; and in-flight packets have been dispatched at least
once. -/
def ledgerC (Q I T L : List (Pkt M)) (ev : List (Ev M E D)) (n : Nat) :
    Prop :=
  (∀ p ∈ Q ++ I ++ T ++ L, p.attempt = countDispatchedId p.id ev) ∧
  (∀ p ∈ Q ++ I ++ T ++ L, p.id < n) ∧
  (∀ i, (Q ++ I ++ T ++ L).countP (fun p => p.id == i) ≤ 1) ∧
  (∀ i, n ≤ i → countDispatchedId i ev = 0) ∧
  (∀ p ∈ I, 1 ≤ p.attempt)

/-- The attempt-counter ledger of an engine state: each dispatch —
`messagePacket.attempt++` on line 330 followed by the processor call on
line 336 — increments the packet's counter and the ghost dispatch count
together, and no other transition ever changes an attempt counter. -/
def ledger (s : St M E D) : Prop :=
  ledgerC s.queue (inflightPkts s) (timerPkts s) s.dlq s.events s.nextId

/-- Phase invariant for the same drain cycle with a single worker: while
processing, no `finished` has been published and the single fiber is
either in flight or ready with a nonempty queue; once processing stops,
`finished` has been published exactly once, the queue is empty, and at
most a ready fiber remains. -/
def oneWorkerInv (s : St M E D) : Prop :=
  (s.isProcessing = true ∧ countFinished s.events = 0 ∧
    ((∃ w p, s.fibers = [⟨w, .awaitingProc p⟩]) ∨
      (∃ w, s.fibers = [⟨w, .ready⟩] ∧ s.queue ≠ []))) ∨
  (s.isProcessing = false ∧ countFinished s.events = 1 ∧ s.queue = [] ∧
    (s.fibers = [] ∨ ∃ w, s.fibers = [⟨w, .ready⟩]))

/-- An externally triggered operation or an internal scheduler step: the
public engine operations of part_001 lines 428-464 plus the firing of one
pending task. -/
inductive Act (M : Type) where
  | task (t : Task)
  | addMsg (m : M)
  | startOp
  | stopOp
  | clearOp

/-- Apply one action. -/
def doAct (cfg : Cfg M E D) (s : St M E D) : Act M → St M E D
  | .task t => step cfg s t
  | .addMsg m => add cfg m s
  | .startOp => start cfg s
  | .stopOp => stop s
  | .clearOp => clear s

/-- Drive the engine along a sequence of actions. -/
def runActs (cfg : Cfg M E D) (s : St M E D) (acts : List (Act M)) : St M E D :=
  acts.foldl (doAct cfg) s

/-- Erase the `forceStopped` flag; two states with the same erasure agree
on every observable component. -/
def clearFS (s : St M E D) : St M E D :=
  { s with forceStopped := false }

/-- Two engine states that agree on everything except the write-only
`forceStopped` flag. -/
def FsEq (s1 s2 : St M E D) : Prop :=
  clearFS s1 = clearFS s2

/-! The event dispatcher in isolation (part_001 lines 278-304): each
emitter runs `for (const listener of listeners.kind) listener(data)`.  A
listener is modelled as a function from the shared mutable environment to
either an updated environment or a thrown exception; the payload is fixed
for one publish call, so it is baked into the listener functions. -/

/-- One publish call: invoke the currently subscribed listeners in list
order, synchronously, threading the shared environment; a thrown exception
propagates to the publisher and delivery stops. -/
def publish {σ ε : Type} (ls : List (σ → Except ε σ)) (s : σ) : Except ε σ :=
  match ls with
  | [] => .ok s
  | l :: rest =>
    match l s with
    | .ok s1 => publish rest s1
    | .error e => .error e

/-- A listener that records its identity in a shared log and returns. -/
def logListener {ε : Type} (i : Nat) : List Nat → Except ε (List Nat) :=
  fun log => .ok (log ++ [i])

/-- A listener that throws. -/
def throwListener {ε : Type} (e : ε) : List Nat → Except ε (List Nat) :=
  fun _ => .error e

/-! The `processed` listener list as a registration sequence (part_001):
line 395 pushes the internal finished-check listener, lines 415-417 push
the `onProcessed` option callback if present, and afterwards
`addEventListener` (line 470) pushes and `removeEventListener` (lines
478-481) splices out the first identity match.  User code can never hold a
reference to the internal closure, so removal targets are always user
callbacks. -/

inductive ProcListener where
  | internalCheck
  | callback (n : Nat)
  deriving Repr, DecidableEq

/-- The `processed` listener list at the end of the constructor (before
any `addEventListener` call): the internal check first, then the optional
`onProcessed` callback. -/
def initListeners (onProcessed : Option Nat) : List ProcListener :=
  .internalCheck :: (onProcessed.map ProcListener.callback).toList

/-- A user operation on the `processed` listener list. -/
inductive LOp where
  | addListener (n : Nat)
  | removeListener (n : Nat)

/-- addEventListener pushes (line 470); removeEventListener removes the
first identity match, a no-op when absent (lines 478-481). -/
def applyLOp (ls : List ProcListener) : LOp → List ProcListener
  | .addListener n => ls ++ [.callback n]
  | .removeListener n => ls.erase (.callback n)

/-! Machinery for the retry/dead-letter scenario: `N` distinct items are
modelled as the messages `0, …, N-1` (so an item is identified by its
payload), the processor rejects every invocation throwing its own message,
the retry budget is `redriveCount = 2`, a dead-letter queue is configured,
`stopOnError` is off and `autoStart` is on. -/

/-- The configuration of the retry/dead-letter scenario. -/
def errCfg (W : Nat) (dl : Nat → Nat → Nat) : Cfg Nat Nat Nat :=
  ⟨fun m => .error m, W, 2, dl, false, true, true⟩

/-- Number of packets in `l` carrying the payload `i`. -/
def cntMsg (i : Nat) (l : List (Pkt Nat)) : Nat :=
  l.countP (fun p => p.message == i)

/-- Number of not-yet-retired copies of item `i`: packets with identity
`i` pending in the queue, in flight with a worker, or held by a retry
delay. -/
def liveCnt (i : Nat) (s : St Nat Nat Nat) : Nat :=
  (s.queue ++ inflightPkts s ++ timerPkts s).countP (fun p => p.id == i)

/-- Core invariant of the retry/dead-letter run: every pending packet
carries its own identity as payload and has been dispatched at most once,
every in-flight packet at most twice, every retry-held packet exactly
once; dead-letter entries are fresh packets (attempt restarted at 0) for
seeded payloads; each item is either live in exactly one place with no
`error` published and no dead-letter entry, or retired with exactly 2
dispatches, exactly 1 `error` and exactly 1 dead-letter entry; and a
worker whose `isWorking` flag is set has an invocation parked at the
processor. -/
def C2core (N : Nat) (s : St Nat Nat Nat) : Prop :=
  (∀ p ∈ s.queue, p.message = p.id ∧ p.id < N ∧ p.attempt ≤ 1) ∧
  (∀ p ∈ inflightPkts s, p.message = p.id ∧ p.id < N ∧ p.attempt ≤ 2) ∧
  (∀ p ∈ timerPkts s, p.message = p.id ∧ p.id < N ∧ p.attempt = 1) ∧
  (∀ p ∈ s.dlq, p.attempt = 0 ∧ p.message < N) ∧
  (∀ i, i < N →
    (liveCnt i s = 1 ∧ countErrorAt i s.events = 0 ∧
      cntMsg i s.dlq = 0) ∨
    (liveCnt i s = 0 ∧ countDispatchedId i s.events = 2 ∧
      countErrorAt i s.events = 1 ∧ cntMsg i s.dlq = 1)) ∧
  (∀ w, s.working.getD w false = true →
    ∃ f ∈ s.fibers, f.worker = w ∧ ∃ q, f.pc = FiberPC.awaitingProc q)

/-- Full invariant of the retry/dead-letter run: the attempt ledger, the
core accounting, live worker-loop invocations while processing, and —
once processing has stopped — an empty queue unless a retry timeout is
still pending. -/
def C2inv (N : Nat) (s : St Nat Nat Nat) : Prop :=
  ledger s ∧ C2core N s ∧
  (s.isProcessing = true → s.fibers ≠ []) ∧
  (s.isProcessing = false → s.queue = [] ∨ s.timers ≠ [])

/-! Helper lemmas. -/

theorem step_quiescent (cfg : Cfg M E D) (s : St M E D) (h : quiescent s)
    (t : Task) : step cfg s t = s := by
  obtain ⟨hf, ht⟩ := h
  cases t with
  | fiber j => simp [step, runFiberTask, hf]
  | timer j => simp [step, runTimerTask, ht]

theorem runTasks_quiescent (cfg : Cfg M E D) (s : St M E D)
    (h : quiescent s) (sched : List Task) : runTasks cfg s sched = s := by
  induction sched with
  | nil => rfl
  | cons t rest ih =>
    show runTasks cfg (step cfg s t) rest = s
    rw [step_quiescent cfg s h t, ih]

theorem publish_append {σ ε : Type} (ls1 ls2 : List (σ → Except ε σ))
    (s : σ) :
    publish (ls1 ++ ls2) s =
      match publish ls1 s with
      | .ok s1 => publish ls2 s1
      | .error e => .error e := by
  induction ls1 generalizing s with
  | nil => simp [publish]
  | cons l rest ih =>
    simp only [List.cons_append, publish]
    cases h : l s with
    | ok s1 =>
      simp only [h]
      exact ih s1
    | error e => simp only [h]

theorem publish_loggers {ε : Type} (ids log : List Nat) :
    publish (ids.map (logListener (ε := ε))) log = .ok (log ++ ids) := by
  induction ids generalizing log with
  | nil => simp [publish]
  | cons i rest ih =>
    show publish (logListener i :: rest.map logListener) log = _
    rw [publish]
    show publish (rest.map logListener) (log ++ [i]) = _
    rw [ih]
    simp

theorem foldl_lop_head (ops : List LOp) (rest : List ProcListener) :
    ∃ rest2,
      ops.foldl applyLOp (.internalCheck :: rest) = .internalCheck :: rest2 := by
  induction ops generalizing rest with
  | nil => exact ⟨rest, rfl⟩
  | cons op ops ih =>
    cases op with
    | addListener n =>
      simpa [applyLOp] using ih (rest ++ [.callback n])
    | removeListener n =>
      have herase :
          (ProcListener.internalCheck :: rest).erase (.callback n) =
            .internalCheck :: rest.erase (.callback n) := by
        rw [List.erase_cons]
        simp
      simpa [applyLOp, herase] using ih (rest.erase (.callback n))

theorem emitProcessed_events (d : D) (s : St M E D) :
    (emitProcessed d s).events =
      (if s.queue.isEmpty && !anyAwaitingRetry s then
        [Ev.finished, Ev.processed d] else [Ev.processed d]) ++ s.events := by
  cases hq : s.queue.isEmpty <;> cases ha : s.awaitRetry.any (fun b => b) <;>
    simp [emitProcessed, emitFinished, hasMessages, anyAwaitingRetry, hq, ha]

theorem emitProcessed_isProcessing (d : D) (s : St M E D) :
    (emitProcessed d s).isProcessing =
      (if s.queue.isEmpty && !anyAwaitingRetry s then false
       else s.isProcessing) := by
  cases hq : s.queue.isEmpty <;> cases ha : s.awaitRetry.any (fun b => b) <;>
    simp [emitProcessed, emitFinished, hasMessages, anyAwaitingRetry, hq, ha]

theorem publish_throws {ε : Type} (pre : List Nat) (e : ε)
    (post : List (List Nat → Except ε (List Nat))) (log : List Nat) :
    publish (pre.map logListener ++ throwListener e :: post) log = .error e := by
  induction pre generalizing log with
  | nil => simp [publish, throwListener]
  | cons i rest ih =>
    show publish (logListener i :: (rest.map logListener ++ _)) log = _
    rw [publish]
    exact ih (log ++ [i])

/-! Claim theorems (dispatcher and listener registration). -/

/-- C4: publishing an event invokes exactly the listeners subscribed at
the moment of publish, synchronously and in subscription order (a list of
recording listeners appends exactly their identities, in order, to the
shared log), delivery is sequential composition over the subscriber list,
and a listener that throws propagates its exception to the publisher with
none of the later listeners invoked (the result is the thrown error,
independent of whatever listeners follow). -/
theorem C4_publish_order_and_abort :
    (∀ (σ ε : Type) (ls1 ls2 : List (σ → Except ε σ)) (s : σ),
      publish (ls1 ++ ls2) s =
        match publish ls1 s with
        | .ok s1 => publish ls2 s1
        | .error e => .error e) ∧
    (∀ (ε : Type) (ids log : List Nat),
      publish (ids.map (logListener (ε := ε))) log = .ok (log ++ ids)) ∧
    (∀ (ε : Type) (pre : List Nat) (e : ε)
      (post : List (List Nat → Except ε (List Nat))) (log : List Nat),
      publish (pre.map logListener ++ throwListener e :: post) log =
        .error e) :=
  ⟨fun _ _ => publish_append, fun _ => publish_loggers,
   fun _ => publish_throws⟩

/-- C3: in every reachable configuration of the `processed` listener list
(built from the internal finished-check registration, the optional
`onProcessed` callback, and any sequence of addEventListener /
removeEventListener calls) the internal finished-check listener occupies
the first position; and on every successful processing that listener
publishes `finished` exactly when the queue is empty and no worker is
awaiting a retry. -/
theorem C3_internal_check_first :
    (∀ (onProcessed : Option Nat) (ops : List LOp),
      ∃ rest,
        ops.foldl applyLOp (initListeners onProcessed) =
          .internalCheck :: rest) ∧
    (∀ (A B C : Type) (d : C) (s : St A B C),
      (emitProcessed d s).events =
        (if s.queue.isEmpty && !anyAwaitingRetry s then
          [Ev.finished, Ev.processed d] else [Ev.processed d]) ++ s.events) ∧
    (∀ (A B C : Type) (d : C) (s : St A B C),
      (emitProcessed d s).isProcessing =
        (if s.queue.isEmpty && !anyAwaitingRetry s then false
         else s.isProcessing)) := by
  refine ⟨fun onProcessed ops => ?_, fun _ _ _ => emitProcessed_events,
    fun _ _ _ => emitProcessed_isProcessing⟩
  cases onProcessed with
  | none => exact foldl_lop_head ops []
  | some n => exact foldl_lop_head ops [.callback n]

/-- C8: `clear()` removes every pending item, sets `isProcessing` to
false, and unconditionally publishes `finished` (whatever the prior queue
or processing state); and in the scenario of two seeded items with
`autoStart = false`, calling `clear()` then `start()` leaves a quiescent
engine in which no schedule ever invokes the processor, with `awaitIdle`
able to resolve (`isProcessing` is false). -/
theorem C8_clear_drops_everything :
    (∀ (A B C : Type) (s : St A B C),
      clear s =
        { s with queue := [], isProcessing := false,
                 events := .finished :: s.events }) ∧
    (∀ (A B C : Type) (proc : A → Except B C) (wk rd : Nat)
      (rdd : Nat → A → Nat) (so hd : Bool) (m1 m2 : A) (sched : List Task),
      countDispatched
        (runTasks ⟨proc, wk, rd, rdd, so, false, hd⟩
          (start ⟨proc, wk, rd, rdd, so, false, hd⟩
            (clear (init ⟨proc, wk, rd, rdd, so, false, hd⟩ [m1, m2])))
          sched).events = 0 ∧
      (runTasks ⟨proc, wk, rd, rdd, so, false, hd⟩
          (start ⟨proc, wk, rd, rdd, so, false, hd⟩
            (clear (init ⟨proc, wk, rd, rdd, so, false, hd⟩ [m1, m2])))
          sched).isProcessing = false) := by
  constructor
  · intro A B C s
    rfl
  · intro A B C proc wk rd rdd so hd m1 m2 sched
    have hq :
        quiescent (start ⟨proc, wk, rd, rdd, so, false, hd⟩
          (clear (init ⟨proc, wk, rd, rdd, so, false, hd⟩ [m1, m2]))) := by
      constructor <;> rfl
    rw [runTasks_quiescent _ _ hq]
    constructor <;> rfl

/-- C7: `start()` is a no-op — no event published, no state change — when
the engine is already processing and no worker is awaiting retry; and in
the scenario of one seeded item, one worker, `autoStart = false` and a
succeeding processor, calling `start()` twice still processes the item
exactly once. -/
theorem C7_start_noop_when_running :
    (∀ (A B C : Type) (cfg : Cfg A B C) (s : St A B C),
      s.isProcessing = true → anyAwaitingRetry s = false → start cfg s = s) ∧
    (∀ (A B C : Type) (proc : A → Except B C) (rdd : Nat → A → Nat)
      (m : A) (d : C), proc m = .ok d →
      countProcessed
        (runTasks ⟨proc, 1, 0, rdd, false, false, false⟩
          (start ⟨proc, 1, 0, rdd, false, false, false⟩
            (start ⟨proc, 1, 0, rdd, false, false, false⟩
              (init ⟨proc, 1, 0, rdd, false, false, false⟩ [m])))
          [.fiber 0, .fiber 0]).events = 1 ∧
      countDispatched
        (runTasks ⟨proc, 1, 0, rdd, false, false, false⟩
          (start ⟨proc, 1, 0, rdd, false, false, false⟩
            (start ⟨proc, 1, 0, rdd, false, false, false⟩
              (init ⟨proc, 1, 0, rdd, false, false, false⟩ [m])))
          [.fiber 0, .fiber 0]).events = 1 ∧
      quiescent
        (runTasks ⟨proc, 1, 0, rdd, false, false, false⟩
          (start ⟨proc, 1, 0, rdd, false, false, false⟩
            (start ⟨proc, 1, 0, rdd, false, false, false⟩
              (init ⟨proc, 1, 0, rdd, false, false, false⟩ [m])))
          [.fiber 0, .fiber 0])) := by
  constructor
  · intro A B C cfg s h1 h2
    simp [start, startProcessing, h1, h2]
  · intro A B C proc rdd m d h
    have hrun :
        runTasks ⟨proc, 1, 0, rdd, false, false, false⟩
          (start ⟨proc, 1, 0, rdd, false, false, false⟩
            (start ⟨proc, 1, 0, rdd, false, false, false⟩
              (init ⟨proc, 1, 0, rdd, false, false, false⟩ [m])))
          [.fiber 0, .fiber 0] =
        { queue := [], isProcessing := false, forceStopped := false,
          working := [false], awaitRetry := [false], fibers := [],
          timers := [],
          events := [.finished, .processed d, .dispatched 0 m 1, .started],
          dlq := [], nextId := 1 } := by
      simp [runTasks, step, runFiberTask, resolve, h, emitProcessed,
        emitFinished, emitStarted, hasMessages, anyAwaitingRetry,
        spawnFiber, fiberIter, dispatch, init, start, startProcessing,
        spawnLoop, seedPkts]
    rw [hrun]
    refine ⟨rfl, rfl, rfl, rfl⟩

/-- C5: with `stopOnError = true` a terminal processing error publishes
`error` then immediately `finished` and halts the engine (`isProcessing`
false, `forceStopped` set); in the scenario of 2 queued items, 1 worker,
`redriveCount = 0` and a processor failing on the first item, the
processor is invoked exactly once and the second item stays in the queue,
never dispatched, under every continuation schedule. -/
theorem C5_stopOnError_abandons_queue :
    (∀ (A B C : Type) (cfg : Cfg A B C) (e : B) (s : St A B C),
      cfg.stopOnError = true →
      emitError cfg e s =
        { s with events := .finished :: .error e :: s.events,
                 isProcessing := false, forceStopped := true }) ∧
    (∀ (A B C : Type) (proc : A → Except B C) (rdd : Nat → A → Nat)
      (m1 m2 : A) (e : B), proc m1 = .error e →
      let cfg : Cfg A B C := ⟨proc, 1, 0, rdd, true, false, false⟩
      let final := runTasks cfg (start cfg (init cfg [m1, m2]))
        [.fiber 0, .fiber 0]
      final.events = [.finished, .error e, .dispatched 0 m1 1, .started] ∧
      countDispatched final.events = 1 ∧
      final.queue = [⟨1, m2, 0⟩] ∧
      final.isProcessing = false ∧
      quiescent final ∧
      ∀ sched, countDispatched (runTasks cfg final sched).events = 1) := by
  constructor
  · intro A B C cfg e s h
    simp [emitError, emitFinished, h]
  · intro A B C proc rdd m1 m2 e h
    have hrun :
        runTasks ⟨proc, 1, 0, rdd, true, false, false⟩
          (start ⟨proc, 1, 0, rdd, true, false, false⟩
            (init ⟨proc, 1, 0, rdd, true, false, false⟩ [m1, m2]))
          [.fiber 0, .fiber 0] =
        { queue := [⟨1, m2, 0⟩], isProcessing := false, forceStopped := true,
          working := [false], awaitRetry := [false], fibers := [],
          timers := [],
          events := [.finished, .error e, .dispatched 0 m1 1, .started],
          dlq := [], nextId := 2 } := by
      simp [runTasks, step, runFiberTask, resolve, h, emitError,
        emitFinished, emitStarted, hasMessages, anyAwaitingRetry,
        spawnFiber, fiberIter, dispatch, init, start, startProcessing,
        spawnLoop, seedPkts]
    intro cfg final
    have hf : final = _ := hrun
    rw [hf]
    refine ⟨rfl, rfl, rfl, rfl, ⟨rfl, rfl⟩, ?_⟩
    intro sched
    rw [runTasks_quiescent _ _ ⟨rfl, rfl⟩ sched]
    rfl

/-- C6: when processing fails with `attempt < redriveCount`, the worker —
in this order — computes `delay = redriveDelay(attempt, payload)`,
publishes `retry({payload, attempt, delay})`, marks itself awaiting retry
and schedules the delayed timeout; when that timeout fires, the same
packet (attempt preserved) is appended to the queue tail and the resume
timeout is scheduled; when the resume timeout fires, processing is
resumed via `startProcessing` and only then is the awaiting-retry flag
cleared. -/
theorem C6_retry_branch_order :
    ∀ (A B C : Type) (cfg : Cfg A B C) (s : St A B C) (w : Nat) (p : Pkt A)
      (e : B),
      cfg.proc p.message = .error e →
      p.attempt < cfg.redriveCount →
      resolve cfg s w p =
        { s with
            events := .retry p.message p.attempt
              (cfg.redriveDelay p.attempt p.message) :: s.events,
            awaitRetry := s.awaitRetry.set w true,
            timers := s.timers ++ [.retryAppend p w],
            working := s.working.set w false } ∧
      (∀ (s2 : St A B C),
        runTimer cfg s2 (.retryAppend p w) =
          { s2 with queue := s2.queue ++ [p],
                    timers := s2.timers ++ [.retryResume w] }) ∧
      (∀ (s3 : St A B C),
        runTimer cfg s3 (.retryResume w) =
          { startProcessing cfg s3 with
              awaitRetry := (startProcessing cfg s3).awaitRetry.set w
                false }) := by
  intro A B C cfg s w p e h1 h2
  refine ⟨?_, fun s2 => rfl, fun s3 => rfl⟩
  simp [resolve, emitRetry, h1, h2]

/-- Witness for C6 at a concrete input: packet ⟨0, 5, 1⟩ failing under a
redrive budget of 2 with delay policy `attempt + message`. -/
theorem C6_retry_branch_order_witness :
    resolve
        (⟨fun _ => .error 7, 1, 2, fun a m => a + m, false, true, false⟩ :
          Cfg Nat Nat Nat)
        (⟨[], true, false, [false], [false], [], [], [], [], 1⟩ :
          St Nat Nat Nat) 0 ⟨0, 5, 1⟩ =
      (⟨[], true, false, [false], [true], [],
        [.retryAppend ⟨0, 5, 1⟩ 0], [.retry 5 1 6], [], 1⟩ :
          St Nat Nat Nat) :=
  (C6_retry_branch_order Nat Nat Nat
    ⟨fun _ => .error 7, 1, 2, fun a m => a + m, false, true, false⟩
    ⟨[], true, false, [false], [false], [], [], [], [], 1⟩ 0 ⟨0, 5, 1⟩ 7
    rfl (by decide)).1

/-- Witness for C5 at a concrete input: messages 4 and 9, the processor
failing on 4 with error 3. -/
theorem C5_stopOnError_abandons_queue_witness :
    countDispatched
      (runTasks
        (⟨fun m => if m = 4 then .error 3 else .ok m, 1, 0, fun _ _ => 0,
          true, false, false⟩ : Cfg Nat Nat Nat)
        (start
          (⟨fun m => if m = 4 then .error 3 else .ok m, 1, 0, fun _ _ => 0,
            true, false, false⟩ : Cfg Nat Nat Nat)
          (init
            (⟨fun m => if m = 4 then .error 3 else .ok m, 1, 0,
              fun _ _ => 0, true, false, false⟩ : Cfg Nat Nat Nat) [4, 9]))
        [.fiber 0, .fiber 0]).events = 1 :=
  ((C5_stopOnError_abandons_queue.2 Nat Nat Nat
    (fun m => if m = 4 then .error 3 else .ok m) (fun _ _ => 0) 4 9 3
    rfl).2).1

/-- Witness for C7 at a concrete input: one seeded message 3, processor
returning 0. -/
theorem C7_start_noop_when_running_witness :
    countProcessed
      (runTasks
        (⟨fun _ => .ok 0, 1, 0, fun _ _ => 0, false, false, false⟩ :
          Cfg Nat Nat Nat)
        (start
          (⟨fun _ => .ok 0, 1, 0, fun _ _ => 0, false, false, false⟩ :
            Cfg Nat Nat Nat)
          (start
            (⟨fun _ => .ok 0, 1, 0, fun _ _ => 0, false, false, false⟩ :
              Cfg Nat Nat Nat)
            (init
              (⟨fun _ => .ok 0, 1, 0, fun _ _ => 0, false, false, false⟩ :
                Cfg Nat Nat Nat) [3])))
        [.fiber 0, .fiber 0]).events = 1 :=
  (C7_start_noop_when_running.2 Nat Nat Nat (fun _ => .ok 0) (fun _ _ => 0)
    3 0 rfl).1

/-- C1 counterexample: 2 items, 2 workers, an always-succeeding processor.
Both workers dequeue their item during start-up, so the queue is empty
while both are in flight; as each of the two `processed` publications then
sees an empty queue with nobody awaiting retry, the internal finished
check fires twice.  The run drains to quiescence with 2 processor
invocations, 2 `processed` events — and 2 `finished` events, refuting
"publishes the `finished` event exactly once".  The schedule is a
realizable event-loop ordering: both processors pending, then settling one
after the other. -/
theorem C1_two_workers_finished_twice :
    countDispatched
      (runTasks
        (⟨fun m => .ok m, 2, 0, fun _ _ => 0, false, true, false⟩ :
          Cfg Nat Nat Nat)
        (init (⟨fun m => .ok m, 2, 0, fun _ _ => 0, false, true, false⟩ :
          Cfg Nat Nat Nat) [0, 1])
        [.fiber 0, .fiber 0, .fiber 0, .fiber 0]).events = 2 ∧
    countProcessed
      (runTasks
        (⟨fun m => .ok m, 2, 0, fun _ _ => 0, false, true, false⟩ :
          Cfg Nat Nat Nat)
        (init (⟨fun m => .ok m, 2, 0, fun _ _ => 0, false, true, false⟩ :
          Cfg Nat Nat Nat) [0, 1])
        [.fiber 0, .fiber 0, .fiber 0, .fiber 0]).events = 2 ∧
    quiescent
      (runTasks
        (⟨fun m => .ok m, 2, 0, fun _ _ => 0, false, true, false⟩ :
          Cfg Nat Nat Nat)
        (init (⟨fun m => .ok m, 2, 0, fun _ _ => 0, false, true, false⟩ :
          Cfg Nat Nat Nat) [0, 1])
        [.fiber 0, .fiber 0, .fiber 0, .fiber 0]) ∧
    countFinished
      (runTasks
        (⟨fun m => .ok m, 2, 0, fun _ _ => 0, false, true, false⟩ :
          Cfg Nat Nat Nat)
        (init (⟨fun m => .ok m, 2, 0, fun _ _ => 0, false, true, false⟩ :
          Cfg Nat Nat Nat) [0, 1])
        [.fiber 0, .fiber 0, .fiber 0, .fiber 0]).events = 2 :=
  ⟨rfl, rfl, ⟨rfl, rfl⟩, rfl⟩

/-! forceStopped is write-only: lemmas showing that every operation's
observable outcome is independent of the flag's incoming value. -/

theorem fsEq_cases {s1 s2 : St M E D} (h : FsEq s1 s2) :
    ∃ b, s2 = { s1 with forceStopped := b } := by
  refine ⟨s2.forceStopped, ?_⟩
  cases s1
  cases s2
  simp only [FsEq, clearFS, St.mk.injEq] at h
  simp_all

theorem fsEq_emitStarted {s1 s2 : St M E D} (h : FsEq s1 s2) :
    FsEq (emitStarted s1) (emitStarted s2) := by
  obtain ⟨b, rfl⟩ := fsEq_cases h
  rfl

theorem fsEq_emitFinished {s1 s2 : St M E D} (h : FsEq s1 s2) :
    FsEq (emitFinished s1) (emitFinished s2) := by
  obtain ⟨b, rfl⟩ := fsEq_cases h
  rfl

theorem fsEq_emitRetry {s1 s2 : St M E D} (m : M) (a d : Nat)
    (h : FsEq s1 s2) : FsEq (emitRetry m a d s1) (emitRetry m a d s2) := by
  obtain ⟨b, rfl⟩ := fsEq_cases h
  rfl

theorem fsEq_emitProcessed {s1 s2 : St M E D} (d : D) (h : FsEq s1 s2) :
    FsEq (emitProcessed d s1) (emitProcessed d s2) := by
  obtain ⟨b, rfl⟩ := fsEq_cases h
  simp only [emitProcessed, emitFinished, hasMessages, anyAwaitingRetry]
  split <;> rfl

theorem fsEq_emitError {s1 s2 : St M E D} (cfg : Cfg M E D) (e : E)
    (h : FsEq s1 s2) : FsEq (emitError cfg e s1) (emitError cfg e s2) := by
  obtain ⟨b, rfl⟩ := fsEq_cases h
  simp only [emitError, emitFinished]
  split <;> rfl

theorem fsEq_dlqAdd {s1 s2 : St M E D} (m : M) (h : FsEq s1 s2) :
    FsEq (dlqAdd m s1) (dlqAdd m s2) := by
  obtain ⟨b, rfl⟩ := fsEq_cases h
  rfl

theorem fsEq_setAwaitRetry {x y : St M E D} (w : Nat) (bv : Bool)
    (h : FsEq x y) :
    FsEq { x with awaitRetry := x.awaitRetry.set w bv }
      { y with awaitRetry := y.awaitRetry.set w bv } := by
  obtain ⟨c, rfl⟩ := fsEq_cases h
  rfl

theorem fsEq_addTimer {x y : St M E D} (t : Timer M) (h : FsEq x y) :
    FsEq { x with timers := x.timers ++ [t] }
      { y with timers := y.timers ++ [t] } := by
  obtain ⟨c, rfl⟩ := fsEq_cases h
  rfl

theorem fsEq_dispatch {s1 s2 : St M E D} (w : Nat) (p : Pkt M)
    (h : FsEq s1 s2) :
    FsEq (dispatch s1 w p).1 (dispatch s2 w p).1 ∧
      (dispatch s1 w p).2 = (dispatch s2 w p).2 := by
  obtain ⟨b, rfl⟩ := fsEq_cases h
  exact ⟨rfl, rfl⟩

theorem fsEq_setWorking {x y : St M E D} (w : Nat) (bv : Bool)
    (h : FsEq x y) :
    FsEq { x with working := x.working.set w bv }
      { y with working := y.working.set w bv } := by
  obtain ⟨c, rfl⟩ := fsEq_cases h
  rfl

theorem fsEq_resolve {s1 s2 : St M E D} (cfg : Cfg M E D) (w : Nat)
    (p : Pkt M) (h : FsEq s1 s2) :
    FsEq (resolve cfg s1 w p) (resolve cfg s2 w p) := by
  simp only [resolve]
  cases hp : cfg.proc p.message with
  | ok d =>
    simp only [hp]
    exact fsEq_setWorking w false (fsEq_emitProcessed d h)
  | error e =>
    simp only [hp]
    by_cases hlt : p.attempt < cfg.redriveCount
    · rw [if_pos hlt, if_pos hlt]
      have h1 := fsEq_setAwaitRetry w true (fsEq_emitRetry p.message
        p.attempt (cfg.redriveDelay p.attempt p.message) h)
      have h2 := fsEq_addTimer (.retryAppend p w) h1
      exact fsEq_setWorking w false h2
    · rw [if_neg hlt, if_neg hlt]
      by_cases hdl : cfg.hasDlq = true
      · rw [if_pos hdl, if_pos hdl]
        exact fsEq_setWorking w false
          (fsEq_dlqAdd p.message (fsEq_emitError cfg e h))
      · rw [if_neg hdl, if_neg hdl]
        exact fsEq_setWorking w false (fsEq_emitError cfg e h)

theorem fsEq_fiberIter {s1 s2 : St M E D} (w : Nat) (h : FsEq s1 s2) :
    FsEq (fiberIter s1 w).1 (fiberIter s2 w).1 ∧
      (fiberIter s1 w).2 = (fiberIter s2 w).2 := by
  obtain ⟨b, rfl⟩ := fsEq_cases h
  obtain ⟨q, ip, fs, wk, ar, fb, tm, ev, dl, ni⟩ := s1
  cases ip <;> cases han : ar.any (fun x => x) <;> cases q <;>
    simp [fiberIter, anyAwaitingRetry, emitFinished, dispatch, FsEq,
      clearFS, han]

theorem fsEq_spawnFiber {s1 s2 : St M E D} (w : Nat) (h : FsEq s1 s2) :
    FsEq (spawnFiber s1 w) (spawnFiber s2 w) := by
  obtain ⟨b, rfl⟩ := fsEq_cases h
  obtain ⟨q, ip, fs, wk, ar, fb, tm, ev, dl, ni⟩ := s1
  cases ip <;> cases han : ar.any (fun x => x) <;> cases q <;>
    simp [spawnFiber, fiberIter, anyAwaitingRetry, emitFinished, dispatch,
      FsEq, clearFS, han]

theorem fsEq_spawnLoop {s1 s2 : St M E D} (ws : List Nat) (h : FsEq s1 s2) :
    FsEq (spawnLoop ws s1) (spawnLoop ws s2) := by
  induction ws generalizing s1 s2 with
  | nil => exact h
  | cons w rest ih =>
    obtain ⟨b, rfl⟩ := fsEq_cases h
    simp only [spawnLoop]
    split
    · exact h
    · split
      · exact ih h
      · exact ih (fsEq_spawnFiber w h)

theorem fsEq_startProcessing {s1 s2 : St M E D} (cfg : Cfg M E D)
    (h : FsEq s1 s2) :
    FsEq (startProcessing cfg s1) (startProcessing cfg s2) := by
  obtain ⟨b, rfl⟩ := fsEq_cases h
  simp only [startProcessing, emitStarted, emitFinished, hasMessages,
    anyAwaitingRetry]
  split
  · exact h
  · split
    · rfl
    · exact fsEq_spawnLoop _ rfl

theorem fsEq_addFiber {x y : St M E D} (f : Fiber M) (h : FsEq x y) :
    FsEq { x with fibers := x.fibers ++ [f] }
      { y with fibers := y.fibers ++ [f] } := by
  obtain ⟨c, rfl⟩ := fsEq_cases h
  rfl

theorem fsEq_runFiberTask {s1 s2 : St M E D} (cfg : Cfg M E D) (j : Nat)
    (h : FsEq s1 s2) :
    FsEq (runFiberTask cfg s1 j) (runFiberTask cfg s2 j) := by
  obtain ⟨b, rfl⟩ := fsEq_cases h
  obtain ⟨q, ip, fs, wk, ar, fb, tm, ev, dl, ni⟩ := s1
  simp only [runFiberTask]
  cases hf : fb.get? j with
  | none => exact rfl
  | some f =>
    simp only [hf]
    cases f with
    | mk w pc =>
      cases pc with
      | ready => exact fsEq_spawnFiber w rfl
      | awaitingProc p =>
        have hr : FsEq
            (resolve cfg ⟨q, ip, fs, wk, ar, fb.eraseIdx j, tm, ev, dl,
              ni⟩ w p)
            (resolve cfg ⟨q, ip, b, wk, ar, fb.eraseIdx j, tm, ev, dl,
              ni⟩ w p) :=
          fsEq_resolve cfg w p rfl
        exact fsEq_addFiber ⟨w, .ready⟩ hr

theorem fsEq_runTimer {s1 s2 : St M E D} (cfg : Cfg M E D) (t : Timer M)
    (h : FsEq s1 s2) : FsEq (runTimer cfg s1 t) (runTimer cfg s2 t) := by
  cases t with
  | retryAppend p w =>
    obtain ⟨b, rfl⟩ := fsEq_cases h
    rfl
  | retryResume w =>
    exact fsEq_setAwaitRetry w false (fsEq_startProcessing cfg h)

theorem fsEq_step {s1 s2 : St M E D} (cfg : Cfg M E D) (t : Task)
    (h : FsEq s1 s2) : FsEq (step cfg s1 t) (step cfg s2 t) := by
  cases t with
  | fiber j => exact fsEq_runFiberTask cfg j h
  | timer j =>
    obtain ⟨b, rfl⟩ := fsEq_cases h
    obtain ⟨q, ip, fs, wk, ar, fb, tm, ev, dl, ni⟩ := s1
    simp only [step, runTimerTask]
    cases ht : tm.get? j with
    | none => exact rfl
    | some t0 =>
      simp only [ht]
      exact fsEq_runTimer cfg t0 rfl

theorem fsEq_doAct {s1 s2 : St M E D} (cfg : Cfg M E D) (a : Act M)
    (h : FsEq s1 s2) : FsEq (doAct cfg s1 a) (doAct cfg s2 a) := by
  cases a with
  | task t => exact fsEq_step cfg t h
  | addMsg m =>
    obtain ⟨b, rfl⟩ := fsEq_cases h
    simp only [doAct, add]
    split
    · exact fsEq_startProcessing cfg rfl
    · rfl
  | startOp => exact fsEq_startProcessing cfg h
  | stopOp =>
    obtain ⟨b, rfl⟩ := fsEq_cases h
    simp only [doAct, stop, emitFinished, hasMessages]
    split <;> rfl
  | clearOp =>
    obtain ⟨b, rfl⟩ := fsEq_cases h
    rfl

theorem fsEq_runActs {s1 s2 : St M E D} (cfg : Cfg M E D)
    (acts : List (Act M)) (h : FsEq s1 s2) :
    FsEq (runActs cfg s1 acts) (runActs cfg s2 acts) := by
  induction acts generalizing s1 s2 with
  | nil => exact h
  | cons a rest ih =>
    exact ih (fsEq_doAct cfg a h)

/-- C10: `forceStopped` is write-only.  Starting from two states that
differ only in the flag's value, every sequence of operations and
scheduler steps produces states that again differ at most in the flag: the
event log, the queue, the dead-letter queue, worker flags, fibers and
timers — all observable behavior — are identical regardless of the flag's
value. -/
theorem C10_forceStopped_write_only :
    ∀ (A B C : Type) (cfg : Cfg A B C) (s : St A B C) (b : Bool)
      (acts : List (Act A)),
      clearFS (runActs cfg { s with forceStopped := b } acts) =
        clearFS (runActs cfg s acts) := by
  intro A B C cfg s b acts
  exact fsEq_runActs cfg acts rfl

/-! Structural helpers for invariant preservation over scheduler steps. -/

theorem get?_decomp {α : Type} (l : List α) (j : Nat) (f : α)
    (h : l[j]? = some f) :
    l = l.take j ++ f :: l.drop (j + 1) ∧
      l.eraseIdx j = l.take j ++ l.drop (j + 1) := by
  induction l generalizing j with
  | nil => simp at h
  | cons a t ih =>
    cases j with
    | zero =>
      simp at h
      subst h
      simp
    | succ j =>
      obtain ⟨h1, h2⟩ := ih j (by simpa using h)
      constructor
      · show a :: t = a :: (t.take j ++ f :: t.drop (j + 1))
        rw [← h1]
      · show a :: t.eraseIdx j = a :: (t.take j ++ t.drop (j + 1))
        rw [h2]

theorem runFiberTask_get_none (cfg : Cfg M E D) (s : St M E D) (j : Nat)
    (h : s.fibers[j]? = none) : runFiberTask cfg s j = s := by
  simp [runFiberTask, h]

theorem runFiberTask_get_ready (cfg : Cfg M E D) (s : St M E D) (j w : Nat)
    (h : s.fibers[j]? = some ⟨w, .ready⟩) :
    runFiberTask cfg s j =
      spawnFiber { s with fibers := s.fibers.eraseIdx j } w := by
  simp [runFiberTask, h]

theorem runFiberTask_get_await (cfg : Cfg M E D) (s : St M E D) (j w : Nat)
    (p : Pkt M) (h : s.fibers[j]? = some ⟨w, .awaitingProc p⟩) :
    runFiberTask cfg s j =
      { resolve cfg { s with fibers := s.fibers.eraseIdx j } w p with
          fibers :=
            (resolve cfg { s with fibers := s.fibers.eraseIdx j } w
              p).fibers ++ [⟨w, .ready⟩] } := by
  simp [runFiberTask, h]

theorem runTimerTask_get_none (cfg : Cfg M E D) (s : St M E D) (j : Nat)
    (h : s.timers[j]? = none) : runTimerTask cfg s j = s := by
  simp [runTimerTask, h]

theorem runTimerTask_get_some (cfg : Cfg M E D) (s : St M E D) (j : Nat)
    (t : Timer M) (h : s.timers[j]? = some t) :
    runTimerTask cfg s j =
      runTimer cfg { s with timers := s.timers.eraseIdx j } t := by
  simp [runTimerTask, h]

theorem fiberIter_dead (s : St M E D) (w : Nat)
    (hc : (s.isProcessing || anyAwaitingRetry s) = false) :
    fiberIter s w = (s, none) := by
  simp [fiberIter, hc]

theorem fiberIter_dispatch (s : St M E D) (w : Nat) (p : Pkt M)
    (rest : List (Pkt M)) (hq : s.queue = p :: rest)
    (hc : (s.isProcessing || anyAwaitingRetry s) = true) :
    fiberIter s w =
      ({ s with
          queue := rest,
          working := s.working.set w true,
          events := Ev.dispatched p.id p.message (p.attempt + 1) :: s.events },
        some ⟨w, .awaitingProc ⟨p.id, p.message, p.attempt + 1⟩⟩) := by
  simp [fiberIter, hc, hq, dispatch]

theorem fiberIter_empty (s : St M E D) (w : Nat) (hq : s.queue = [])
    (hc : (s.isProcessing || anyAwaitingRetry s) = true) :
    fiberIter s w =
      (if s.isProcessing && !anyAwaitingRetry s then emitFinished s else s,
        some ⟨w, .ready⟩) := by
  simp [fiberIter, hc, hq]

theorem spawnFiber_fibers (s : St M E D) (w : Nat) :
    ∃ l, (spawnFiber s w).fibers = s.fibers ++ l := by
  have hIter : (fiberIter s w).1.fibers = s.fibers := by
    obtain ⟨q, ip, fs, wk, ar, fb, tm, ev, dl, ni⟩ := s
    cases ip <;> cases han : ar.any (fun x => x) <;> cases q <;>
      simp [fiberIter, anyAwaitingRetry, emitFinished, dispatch, han]
  unfold spawnFiber
  cases hr : (fiberIter s w).2 with
  | none => exact ⟨[], by simp [hr, hIter]⟩
  | some f => exact ⟨[f], by simp [hr, hIter]⟩

theorem spawnLoop_fibers (ws : List Nat) (s : St M E D) :
    ∃ l, (spawnLoop ws s).fibers = s.fibers ++ l := by
  induction ws generalizing s with
  | nil => exact ⟨[], by simp [spawnLoop]⟩
  | cons w rest ih =>
    unfold spawnLoop
    split
    · exact ⟨[], by simp⟩
    · split
      · exact ih s
      · obtain ⟨l1, hl1⟩ := spawnFiber_fibers s w
        obtain ⟨l2, hl2⟩ := ih (spawnFiber s w)
        exact ⟨l1 ++ l2, by rw [hl2, hl1, List.append_assoc]⟩

theorem spawnFiber_dead (s : St M E D) (w : Nat)
    (hc : (s.isProcessing || anyAwaitingRetry s) = false) :
    spawnFiber s w = s := by
  simp [spawnFiber, fiberIter_dead s w hc]

theorem spawnFiber_dispatch (s : St M E D) (w : Nat) (p : Pkt M)
    (rest : List (Pkt M)) (hq : s.queue = p :: rest)
    (hc : (s.isProcessing || anyAwaitingRetry s) = true) :
    spawnFiber s w =
      { s with
          queue := rest,
          working := s.working.set w true,
          events := Ev.dispatched p.id p.message (p.attempt + 1) :: s.events,
          fibers :=
            s.fibers ++ [⟨w, .awaitingProc ⟨p.id, p.message,
              p.attempt + 1⟩⟩] } := by
  simp [spawnFiber, fiberIter_dispatch s w p rest hq hc]

theorem spawnFiber_empty (s : St M E D) (w : Nat) (hq : s.queue = [])
    (hc : (s.isProcessing || anyAwaitingRetry s) = true) :
    spawnFiber s w =
      { (if s.isProcessing && !anyAwaitingRetry s then emitFinished s
         else s) with
          fibers :=
            (if s.isProcessing && !anyAwaitingRetry s then emitFinished s
             else s).fibers ++ [⟨w, .ready⟩] } := by
  simp [spawnFiber, fiberIter_empty s w hq hc]

theorem spawnLoop_preserve (P : St M E D → Prop)
    (hstep : ∀ s w, s.queue ≠ [] → P s → P (spawnFiber s w)) :
    ∀ (ws : List Nat) (s : St M E D), P s → P (spawnLoop ws s) := by
  intro ws
  induction ws with
  | nil => intro s h; exact h
  | cons w rest ih =>
    intro s h
    unfold spawnLoop
    split
    · exact h
    · split
      · exact ih s h
      · refine ih _ (hstep s w ?_ h)
        intro hq
        simp_all

/-! Preservation of `alwaysOkInv` by every scheduler step. -/

theorem alwaysOk_spawnFiber (N : Nat) (s0 : St M E D) (w : Nat)
    (htm : s0.timers = [])
    (har : (s0.awaitRetry.any fun b => b) = false)
    (hq0 : s0.isProcessing = false → s0.queue = [])
    (hsum : countProcessed s0.events + s0.queue.length + inflightCount s0 =
      N)
    (hdp : countDispatched s0.events =
      countProcessed s0.events + inflightCount s0)
    (hfin : s0.isProcessing = false → 1 ≤ countFinished s0.events) :
    alwaysOkInv N (spawnFiber s0 w) := by
  have harA : anyAwaitingRetry s0 = false := by
    simpa [anyAwaitingRetry] using har
  rcases Bool.eq_false_or_eq_true s0.isProcessing with hip | hip
  case inr =>
    have hdead : (s0.isProcessing || anyAwaitingRetry s0) = false := by
      rw [hip, harA]
      rfl
    rw [spawnFiber_dead s0 w hdead]
    exact ⟨htm, harA, hq0, hsum, hdp, fun hc => absurd (hip.symm.trans hc)
      (by simp), hfin⟩
  case inl =>
    have hco : (s0.isProcessing || anyAwaitingRetry s0) = true := by
      rw [hip]
      rfl
    obtain hq | ⟨p, rest, hq⟩ :
        s0.queue = [] ∨ ∃ p rest, s0.queue = p :: rest := by
      cases s0.queue
      · exact Or.inl rfl
      · exact Or.inr ⟨_, _, rfl⟩
    · have hcondT : (s0.isProcessing && !anyAwaitingRetry s0) = true := by
        rw [hip, harA]
        rfl
      rw [spawnFiber_empty s0 w hq hco, if_pos hcondT]
      refine ⟨htm, harA, fun _ => hq, ?_, ?_, fun _ => by simp, fun _ => ?_⟩
      · simp [countProcessed, List.countP_cons, inflightCount,
          inflightPkts, emitFinished, fiberPkt, List.filterMap_append,
          hq] at hsum ⊢ <;> omega
      · simp [countDispatched, countProcessed, List.countP_cons,
          inflightCount, inflightPkts, emitFinished, fiberPkt,
          List.filterMap_append] at hdp ⊢ <;> omega
      · show 1 ≤ countFinished (Ev.finished :: s0.events)
        simp [countFinished, List.countP_cons]
    · rw [spawnFiber_dispatch s0 w p rest hq hco]
      refine ⟨htm, harA, fun hc => absurd (hip.symm.trans hc) (by simp),
        ?_, ?_, fun _ => by simp, fun hc => absurd (hip.symm.trans hc)
          (by simp)⟩
      · simp [countProcessed, List.countP_cons, inflightCount,
          inflightPkts, fiberPkt, List.filterMap_append, hq] at hsum ⊢ <;>
          omega
      · simp [countDispatched, countProcessed, List.countP_cons,
          inflightCount, inflightPkts, fiberPkt,
          List.filterMap_append] at hdp ⊢ <;> omega

theorem alwaysOk_resolveStep (cfg : Cfg M E D) (N : Nat) (s0 : St M E D)
    (w : Nat) (p : Pkt M) (d : D) (hd : cfg.proc p.message = .ok d)
    (htm : s0.timers = [])
    (har : (s0.awaitRetry.any fun b => b) = false)
    (hq0 : s0.isProcessing = false → s0.queue = [])
    (hsum : countProcessed s0.events + s0.queue.length +
      (inflightCount s0 + 1) = N)
    (hdp : countDispatched s0.events =
      countProcessed s0.events + inflightCount s0 + 1)
    (hfin : s0.isProcessing = false → 1 ≤ countFinished s0.events) :
    alwaysOkInv N
      { resolve cfg s0 w p with
          fibers := (resolve cfg s0 w p).fibers ++ [⟨w, .ready⟩] } := by
  have harA : anyAwaitingRetry s0 = false := by
    simpa [anyAwaitingRetry] using har
  have hres : resolve cfg s0 w p =
      { emitProcessed d s0 with
          working := (emitProcessed d s0).working.set w false } := by
    simp [resolve, hd]
  rw [hres]
  obtain hq | ⟨p2, rest2, hq⟩ :
      s0.queue = [] ∨ ∃ p2 rest2, s0.queue = p2 :: rest2 := by
    cases s0.queue
    · exact Or.inl rfl
    · exact Or.inr ⟨_, _, rfl⟩
  · have hcond : emitProcessed d s0 =
        emitFinished { s0 with events := Ev.processed d :: s0.events } := by
      simp [emitProcessed, hasMessages, anyAwaitingRetry, hq, har]
    rw [hcond]
    refine ⟨htm, harA, fun _ => hq, ?_, ?_, fun _ => by simp, fun _ => ?_⟩
    · simp [countProcessed, List.countP_cons, inflightCount,
        inflightPkts, emitFinished, fiberPkt, List.filterMap_append,
        hq] at hsum ⊢ <;> omega
    · simp [countDispatched, countProcessed, List.countP_cons,
        inflightCount, inflightPkts, emitFinished, fiberPkt,
        List.filterMap_append] at hdp ⊢ <;> omega
    · show 1 ≤ countFinished (Ev.finished :: Ev.processed d :: s0.events)
      simp [countFinished, List.countP_cons]
  · have hip : s0.isProcessing = true := by
      rcases Bool.eq_false_or_eq_true s0.isProcessing with hip0 | hip0
      · exact hip0
      · rw [hq0 hip0] at hq
        exact absurd hq (by simp)
    have hcond : emitProcessed d s0 =
        { s0 with events := Ev.processed d :: s0.events } := by
      simp [emitProcessed, hasMessages, anyAwaitingRetry, hq, har]
    rw [hcond]
    refine ⟨htm, harA, fun hc => absurd (hip.symm.trans hc) (by simp),
      ?_, ?_, fun _ => by simp, fun hc => absurd (hip.symm.trans hc)
        (by simp)⟩
    · simp [countProcessed, List.countP_cons, inflightCount,
        inflightPkts, fiberPkt, List.filterMap_append] at hsum ⊢ <;> omega
    · simp [countDispatched, countProcessed, List.countP_cons,
        inflightCount, inflightPkts, fiberPkt,
        List.filterMap_append] at hdp ⊢ <;> omega

theorem alwaysOk_step (cfg : Cfg M E D) (N : Nat) (s : St M E D) (t : Task)
    (hok : ∀ m, ∃ d, cfg.proc m = .ok d)
    (hinv : alwaysOkInv N s) : alwaysOkInv N (step cfg s t) := by
  obtain ⟨htm, har, hq0, hsum, hdp, hfib, hfin⟩ := hinv
  have harB : (s.awaitRetry.any fun b => b) = false := by
    simpa [anyAwaitingRetry] using har
  cases t with
  | timer j =>
    rw [show step cfg s (.timer j) = runTimerTask cfg s j from rfl,
      runTimerTask_get_none cfg s j (by simp [htm])]
    exact ⟨htm, har, hq0, hsum, hdp, hfib, hfin⟩
  | fiber j =>
    show alwaysOkInv N (runFiberTask cfg s j)
    cases hf : s.fibers[j]? with
    | none =>
      rw [runFiberTask_get_none cfg s j hf]
      exact ⟨htm, har, hq0, hsum, hdp, hfib, hfin⟩
    | some f =>
      obtain ⟨w, pc⟩ := f
      obtain ⟨hfl, hfe⟩ := get?_decomp s.fibers j ⟨w, pc⟩ hf
      cases pc with
      | ready =>
        rw [runFiberTask_get_ready cfg s j w hf]
        have hinfl0 :
            inflightCount { s with fibers := s.fibers.eraseIdx j } =
              inflightCount s := by
          have h1 : inflightPkts s =
              (s.fibers.take j).filterMap fiberPkt ++
                (s.fibers.drop (j + 1)).filterMap fiberPkt := by
            conv_lhs => rw [inflightPkts, hfl]
            simp [fiberPkt]
          have h2 : inflightPkts { s with fibers := s.fibers.eraseIdx j } =
              (s.fibers.take j).filterMap fiberPkt ++
                (s.fibers.drop (j + 1)).filterMap fiberPkt := by
            rw [inflightPkts]
            show (s.fibers.eraseIdx j).filterMap fiberPkt = _
            rw [hfe]
            simp
          simp [inflightCount, h1, h2]
        exact alwaysOk_spawnFiber N _ w htm harB hq0
          (by rw [show ({ s with fibers := s.fibers.eraseIdx j } :
            St M E D).events = s.events from rfl, hinfl0]; exact hsum)
          (by rw [show ({ s with fibers := s.fibers.eraseIdx j } :
            St M E D).events = s.events from rfl, hinfl0]; exact hdp)
          hfin
      | awaitingProc p =>
        rw [runFiberTask_get_await cfg s j w p hf]
        obtain ⟨d, hd⟩ := hok p.message
        have hinfl :
            inflightCount s =
              inflightCount { s with fibers := s.fibers.eraseIdx j } + 1 := by
          have h1 : inflightPkts s =
              (s.fibers.take j).filterMap fiberPkt ++ p ::
                (s.fibers.drop (j + 1)).filterMap fiberPkt := by
            conv_lhs => rw [inflightPkts, hfl]
            simp [fiberPkt]
          have h2 : inflightPkts { s with fibers := s.fibers.eraseIdx j } =
              (s.fibers.take j).filterMap fiberPkt ++
                (s.fibers.drop (j + 1)).filterMap fiberPkt := by
            rw [inflightPkts]
            show (s.fibers.eraseIdx j).filterMap fiberPkt = _
            rw [hfe]
            simp
          simp only [inflightCount, h1, h2]
          simp
          omega
        refine alwaysOk_resolveStep cfg N _ w p d hd htm harB hq0 ?_ ?_ hfin
        · have h := hsum
          rw [hinfl] at h
          exact h
        · have h := hdp
          rw [hinfl] at h
          exact h


theorem seedPkts_length : ∀ (msgs : List M) (i : Nat),
    (seedPkts msgs i).length = msgs.length := by
  intro msgs
  induction msgs with
  | nil => intro i; rfl
  | cons m t ih =>
    intro i
    show (seedPkts t (i + 1)).length + 1 = t.length + 1
    rw [ih]

theorem alwaysOk_run (cfg : Cfg M E D) (N : Nat) (s : St M E D)
    (sched : List Task) (hok : ∀ m, ∃ d, cfg.proc m = .ok d)
    (hinv : alwaysOkInv N s) : alwaysOkInv N (runTasks cfg s sched) := by
  induction sched generalizing s with
  | nil => exact hinv
  | cons t rest ih => exact ih _ (alwaysOk_step cfg N s t hok hinv)

theorem alwaysOk_quiescent (N : Nat) (s : St M E D)
    (hinv : alwaysOkInv N s) (hq : quiescent s) :
    countDispatched s.events = N ∧ countProcessed s.events = N ∧
      1 ≤ countFinished s.events ∧ s.isProcessing = false := by
  obtain ⟨htm, har, hq0, hsum, hdp, hfib, hfin⟩ := hinv
  obtain ⟨hfz, htz⟩ := hq
  have hip : s.isProcessing = false := by
    rcases Bool.eq_false_or_eq_true s.isProcessing with h | h
    · exact absurd hfz (hfib h)
    · exact h
  have hqe := hq0 hip
  have hI : inflightCount s = 0 := by
    simp [inflightCount, inflightPkts, hfz]
  rw [hqe, hI] at hsum
  rw [hI] at hdp
  simp only [List.length_nil] at hsum
  exact ⟨by omega, by omega, hfin hip, hip⟩

theorem alwaysOkInv_init (cfg : Cfg M E D) (msgs : List M)
    (hauto : cfg.autoStart = true) (hW : 1 ≤ cfg.workers)
    (hN : 1 ≤ msgs.length) :
    alwaysOkInv msgs.length (init cfg msgs) := by
  cases msgs with
  | nil => simp at hN
  | cons m t =>
    have hinit : init cfg (m :: t) =
        spawnLoop (List.range cfg.workers)
          { queue := seedPkts (m :: t) 0, isProcessing := true,
            forceStopped := false,
            working := List.replicate cfg.workers false,
            awaitRetry := List.replicate cfg.workers false,
            fibers := [], timers := [], events := [.started], dlq := [],
            nextId := t.length + 1 } := by
      simp [init, hauto, hasMessages, seedPkts, startProcessing,
        emitStarted, anyAwaitingRetry]
    rw [hinit]
    have har0 : ((List.replicate cfg.workers false).any fun b => b) =
        false := by
      simp
    have hstep : ∀ (s : St M E D) (w : Nat), s.queue ≠ [] →
        (s.timers = [] ∧ (s.awaitRetry.any fun b => b) = false ∧
          s.isProcessing = true ∧
          countProcessed s.events + s.queue.length + inflightCount s =
            (m :: t).length ∧
          countDispatched s.events =
            countProcessed s.events + inflightCount s) →
        ((spawnFiber s w).timers = [] ∧
          ((spawnFiber s w).awaitRetry.any fun b => b) = false ∧
          (spawnFiber s w).isProcessing = true ∧
          countProcessed (spawnFiber s w).events +
            (spawnFiber s w).queue.length + inflightCount (spawnFiber s w) =
            (m :: t).length ∧
          countDispatched (spawnFiber s w).events =
            countProcessed (spawnFiber s w).events +
              inflightCount (spawnFiber s w)) := by
      intro s w hqne ⟨htm, har, hip, hsum, hdp⟩
      obtain ⟨p, rest, hq⟩ : ∃ p rest, s.queue = p :: rest := by
        cases hcs : s.queue
        · exact absurd hcs hqne
        · exact ⟨_, _, rfl⟩
      have hco : (s.isProcessing || anyAwaitingRetry s) = true := by
        rw [hip]
        rfl
      rw [spawnFiber_dispatch s w p rest hq hco]
      refine ⟨htm, har, hip, ?_, ?_⟩
      · simp [countProcessed, List.countP_cons, inflightCount,
          inflightPkts, fiberPkt, List.filterMap_append, hq] at hsum ⊢ <;>
          omega
      · simp [countDispatched, countProcessed, List.countP_cons,
          inflightCount, inflightPkts, fiberPkt,
          List.filterMap_append] at hdp ⊢ <;> omega
    have hP := spawnLoop_preserve
      (fun s => s.timers = [] ∧ (s.awaitRetry.any fun b => b) = false ∧
        s.isProcessing = true ∧
        countProcessed s.events + s.queue.length + inflightCount s =
          (m :: t).length ∧
        countDispatched s.events =
          countProcessed s.events + inflightCount s)
      hstep (List.range cfg.workers)
      { queue := seedPkts (m :: t) 0, isProcessing := true,
        forceStopped := false,
        working := List.replicate cfg.workers false,
        awaitRetry := List.replicate cfg.workers false,
        fibers := [], timers := [], events := [.started], dlq := [],
        nextId := t.length + 1 }
      ⟨rfl, har0, rfl, by
        simp [countProcessed, List.countP_cons, inflightCount,
          inflightPkts, seedPkts_length], by
        simp [countDispatched, countProcessed, List.countP_cons,
          inflightCount, inflightPkts]⟩
    obtain ⟨htm2, har2, hip2, hsum2, hdp2⟩ := hP
    have hfibne : (spawnLoop (List.range cfg.workers)
        { queue := seedPkts (m :: t) 0, isProcessing := true,
          forceStopped := false,
          working := List.replicate cfg.workers false,
          awaitRetry := List.replicate cfg.workers false,
          fibers := [], timers := [], events := [.started], dlq := [],
          nextId := t.length + 1 } : St M E D).fibers ≠ [] := by
      obtain ⟨k, hk⟩ : ∃ k, cfg.workers = k + 1 :=
        ⟨cfg.workers - 1, by omega⟩
      rw [hk, List.range_succ_eq_map]
      rw [show spawnLoop (0 :: (List.range k).map Nat.succ)
          { queue := seedPkts (m :: t) 0, isProcessing := true,
            forceStopped := false,
            working := List.replicate (k + 1) false,
            awaitRetry := List.replicate (k + 1) false,
            fibers := [], timers := [], events := [.started], dlq := [],
            nextId := t.length + 1 } =
          spawnLoop ((List.range k).map Nat.succ)
            (spawnFiber
              { queue := seedPkts (m :: t) 0, isProcessing := true,
                forceStopped := false,
                working := List.replicate (k + 1) false,
                awaitRetry := List.replicate (k + 1) false,
                fibers := [], timers := [], events := [.started], dlq := [],
                nextId := t.length + 1 } 0) from by
        rw [spawnLoop]
        simp [seedPkts]]
      obtain ⟨l, hl⟩ := spawnLoop_fibers ((List.range k).map Nat.succ)
        (spawnFiber
          { queue := seedPkts (m :: t) 0, isProcessing := true,
            forceStopped := false,
            working := List.replicate (k + 1) false,
            awaitRetry := List.replicate (k + 1) false,
            fibers := [], timers := [], events := [.started], dlq := [],
            nextId := t.length + 1 } 0)
      rw [hl]
      rw [spawnFiber_dispatch _ 0 ⟨0, m, 0⟩ (seedPkts t 1)
        (by simp [seedPkts]) (by rfl)]
      simp
    exact ⟨htm2, by simpa [anyAwaitingRetry] using har2,
      fun hc => absurd (hip2.symm.trans hc) (by simp), hsum2, hdp2,
      fun _ => hfibne, fun hc => absurd (hip2.symm.trans hc) (by simp)⟩

theorem singleton_getElem {α : Type} (x : α) (j : Nat) (f : α)
    (h : ([x] : List α)[j]? = some f) : j = 0 ∧ f = x := by
  cases j with
  | zero =>
    simp at h
    exact ⟨rfl, h.symm⟩
  | succ j => simp at h

theorem oneWorker_init (cfg : Cfg M E D) (msgs : List M)
    (hauto : cfg.autoStart = true) (hW : cfg.workers = 1)
    (hN : 1 ≤ msgs.length) : oneWorkerInv (init cfg msgs) := by
  cases msgs with
  | nil => simp at hN
  | cons m t =>
    have hinit : init cfg (m :: t) =
        { queue := seedPkts t 1, isProcessing := true,
          forceStopped := false, working := [true], awaitRetry := [false],
          fibers := [⟨0, .awaitingProc ⟨0, m, 1⟩⟩], timers := [],
          events := [.dispatched 0 m 1, .started], dlq := [],
          nextId := t.length + 1 } := by
      simp [init, hauto, hW, hasMessages, seedPkts, startProcessing,
        emitStarted, anyAwaitingRetry, spawnLoop, spawnFiber, fiberIter,
        dispatch]
    rw [hinit]
    exact Or.inl ⟨rfl, by simp [countFinished, List.countP_cons],
      Or.inl ⟨0, ⟨0, m, 1⟩, rfl⟩⟩

theorem oneWorker_step (cfg : Cfg M E D) (N : Nat) (s : St M E D)
    (t : Task) (hok : ∀ m, ∃ d, cfg.proc m = .ok d)
    (hA : alwaysOkInv N s) (h1 : oneWorkerInv s) :
    oneWorkerInv (step cfg s t) := by
  obtain ⟨htm, har, hq0, _, _, _, hfin⟩ := hA
  have harB : (s.awaitRetry.any fun b => b) = false := by
    simpa [anyAwaitingRetry] using har
  cases t with
  | timer j =>
    rw [show step cfg s (.timer j) = runTimerTask cfg s j from rfl,
      runTimerTask_get_none cfg s j (by simp [htm])]
    exact h1
  | fiber j =>
    show oneWorkerInv (runFiberTask cfg s j)
    cases hf : s.fibers[j]? with
    | none =>
      rw [runFiberTask_get_none cfg s j hf]
      exact h1
    | some f =>
      rcases h1 with ⟨hip, hf0, hAB⟩ | ⟨hip, hf1, hqe, hfb⟩
      · rcases hAB with ⟨w, p, hfb⟩ | ⟨w, hfb, hqne⟩
        · rw [hfb] at hf
          obtain ⟨rfl, rfl⟩ := singleton_getElem _ j f hf
          have hf2 : s.fibers[0]? = some ⟨w, .awaitingProc p⟩ := by
            rw [hfb]
            rfl
          rw [runFiberTask_get_await cfg s 0 w p hf2]
          have he : s.fibers.eraseIdx 0 = [] := by
            rw [hfb]
            rfl
          rw [he]
          obtain ⟨d, hd⟩ := hok p.message
          have hres : resolve cfg { s with fibers := [] } w p =
              { (emitProcessed d
                  { s with fibers := ([] : List (Fiber M)) }) with
                working :=
                  (emitProcessed d
                    { s with
                        fibers := ([] : List (Fiber M)) }).working.set w
                    false } := by
            simp [resolve, hd]
          rw [hres]
          obtain hq | ⟨p2, rest2, hq⟩ :
              s.queue = [] ∨ ∃ p2 rest2, s.queue = p2 :: rest2 := by
            cases s.queue
            · exact Or.inl rfl
            · exact Or.inr ⟨_, _, rfl⟩
          · have hcond : emitProcessed d
                { s with fibers := ([] : List (Fiber M)) } =
                emitFinished
                  { s with
                      fibers := ([] : List (Fiber M)),
                      events := Ev.processed d :: s.events } := by
              simp [emitProcessed, hasMessages, anyAwaitingRetry, hq, harB]
            rw [hcond]
            refine Or.inr ⟨rfl, ?_, hq, Or.inr ⟨w, rfl⟩⟩
            show countFinished (Ev.finished :: Ev.processed d :: s.events)
              = 1
            simp [countFinished, List.countP_cons]
            simpa [countFinished] using hf0
          · have hcond : emitProcessed d
                { s with fibers := ([] : List (Fiber M)) } =
                { s with
                    fibers := ([] : List (Fiber M)),
                    events := Ev.processed d :: s.events } := by
              simp [emitProcessed, hasMessages, anyAwaitingRetry, hq, harB]
            rw [hcond]
            refine Or.inl ⟨hip, ?_, Or.inr ⟨w, rfl, by simp [hq]⟩⟩
            show countFinished (Ev.processed d :: s.events) = 0
            simpa [countFinished, List.countP_cons] using hf0
        · rw [hfb] at hf
          obtain ⟨rfl, rfl⟩ := singleton_getElem _ j f hf
          have hf2 : s.fibers[0]? = some ⟨w, .ready⟩ := by
            rw [hfb]
            rfl
          rw [runFiberTask_get_ready cfg s 0 w hf2]
          have he : s.fibers.eraseIdx 0 = [] := by
            rw [hfb]
            rfl
          rw [he]
          obtain ⟨p, rest, hq⟩ : ∃ p rest, s.queue = p :: rest := by
            cases hcs : s.queue
            · exact absurd hcs hqne
            · exact ⟨_, _, rfl⟩
          rw [spawnFiber_dispatch { s with fibers := ([] : List (Fiber M)) }
            w p rest (by show s.queue = p :: rest; exact hq)
            (by show (s.isProcessing || anyAwaitingRetry s) = true
                rw [hip]
                rfl)]
          refine Or.inl ⟨hip, ?_, Or.inl ⟨w, _, rfl⟩⟩
          show countFinished (Ev.dispatched p.id p.message (p.attempt + 1)
            :: s.events) = 0
          simpa [countFinished, List.countP_cons] using hf0
      · rcases hfb with hfb | ⟨w, hfb⟩
        · rw [hfb] at hf
          simp at hf
        · rw [hfb] at hf
          obtain ⟨rfl, rfl⟩ := singleton_getElem _ j f hf
          have hf2 : s.fibers[0]? = some ⟨w, .ready⟩ := by
            rw [hfb]
            rfl
          rw [runFiberTask_get_ready cfg s 0 w hf2]
          have he : s.fibers.eraseIdx 0 = [] := by
            rw [hfb]
            rfl
          rw [he]
          rw [spawnFiber_dead { s with fibers := ([] : List (Fiber M)) } w
            (by show (s.isProcessing || anyAwaitingRetry s) = false
                rw [hip, show anyAwaitingRetry s = false from by
                  simpa [anyAwaitingRetry] using harB]
                rfl)]
          exact Or.inr ⟨hip, hf1, hqe, Or.inl rfl⟩

theorem oneWorker_run (cfg : Cfg M E D) (N : Nat) (s : St M E D)
    (sched : List Task) (hok : ∀ m, ∃ d, cfg.proc m = .ok d)
    (hA : alwaysOkInv N s) (h1 : oneWorkerInv s) :
    oneWorkerInv (runTasks cfg s sched) := by
  induction sched generalizing s with
  | nil => exact h1
  | cons t rest ih =>
    exact ih _ (alwaysOk_step cfg N s t hok hA)
      (oneWorker_step cfg N s t hok hA h1)

/-- C1, amended: for N ≥ 1 seeded items, an always-succeeding processor
and worker count W ≥ 1, every drain-to-empty run (any schedule reaching
quiescence) invokes the processor exactly N times and publishes
`processed` exactly N times; `finished` is published at least once, and —
with W = 1 — exactly once.  (The original claim's "finished exactly once"
for all W is refuted by `C1_two_workers_finished_twice`: with W ≥ 2 two
in-flight items can both complete against an empty queue, firing the
internal finished check twice.) -/
theorem C1_drain_counts :
    ∀ (A B C : Type) (cfg : Cfg A B C) (msgs : List A) (sched : List Task),
      (∀ m, ∃ d, cfg.proc m = .ok d) →
      cfg.autoStart = true →
      1 ≤ cfg.workers →
      1 ≤ msgs.length →
      quiescent (runTasks cfg (init cfg msgs) sched) →
      countDispatched (runTasks cfg (init cfg msgs) sched).events =
        msgs.length ∧
      countProcessed (runTasks cfg (init cfg msgs) sched).events =
        msgs.length ∧
      1 ≤ countFinished (runTasks cfg (init cfg msgs) sched).events ∧
      (cfg.workers = 1 →
        countFinished (runTasks cfg (init cfg msgs) sched).events = 1) := by
  intro A B C cfg msgs sched hok hauto hW hN hq
  have hinv := alwaysOk_run cfg msgs.length (init cfg msgs) sched hok
    (alwaysOkInv_init cfg msgs hauto hW hN)
  obtain ⟨h1, h2, h3, hip⟩ :=
    alwaysOk_quiescent msgs.length _ hinv hq
  refine ⟨h1, h2, h3, ?_⟩
  intro hw1
  have hone := oneWorker_run cfg msgs.length (init cfg msgs) sched hok
    (alwaysOkInv_init cfg msgs hauto hW hN)
    (oneWorker_init cfg msgs hauto hw1 hN)
  obtain ⟨hfz, htz⟩ := hq
  rcases hone with ⟨hipA, hf0A, hAB⟩ | ⟨hipB, hf1, hqeB, hfbB⟩
  · rcases hAB with ⟨w, p, hfb⟩ | ⟨w, hfb, hqne⟩ <;> rw [hfb] at hfz <;>
      simp at hfz
  · exact hf1

/-- Witness for C1 at a concrete input: one item, one worker, identity
processor, the canonical two-step schedule. -/
theorem C1_drain_counts_witness :
    countDispatched
      (runTasks (⟨fun m => .ok m, 1, 0, fun _ _ => 0, false, true, false⟩ :
          Cfg Nat Nat Nat)
        (init (⟨fun m => .ok m, 1, 0, fun _ _ => 0, false, true, false⟩ :
          Cfg Nat Nat Nat) [5])
        [.fiber 0, .fiber 0]).events = 1 ∧
    countProcessed
      (runTasks (⟨fun m => .ok m, 1, 0, fun _ _ => 0, false, true, false⟩ :
          Cfg Nat Nat Nat)
        (init (⟨fun m => .ok m, 1, 0, fun _ _ => 0, false, true, false⟩ :
          Cfg Nat Nat Nat) [5])
        [.fiber 0, .fiber 0]).events = 1 ∧
    1 ≤ countFinished
      (runTasks (⟨fun m => .ok m, 1, 0, fun _ _ => 0, false, true, false⟩ :
          Cfg Nat Nat Nat)
        (init (⟨fun m => .ok m, 1, 0, fun _ _ => 0, false, true, false⟩ :
          Cfg Nat Nat Nat) [5])
        [.fiber 0, .fiber 0]).events ∧
    ((⟨fun m => .ok m, 1, 0, fun _ _ => 0, false, true, false⟩ :
        Cfg Nat Nat Nat).workers = 1 →
      countFinished
        (runTasks (⟨fun m => .ok m, 1, 0, fun _ _ => 0, false, true,
            false⟩ : Cfg Nat Nat Nat)
          (init (⟨fun m => .ok m, 1, 0, fun _ _ => 0, false, true, false⟩ :
            Cfg Nat Nat Nat) [5])
          [.fiber 0, .fiber 0]).events = 1) :=
  C1_drain_counts Nat Nat Nat
    ⟨fun m => .ok m, 1, 0, fun _ _ => 0, false, true, false⟩ [5]
    [.fiber 0, .fiber 0] (fun m => ⟨m, rfl⟩) rfl (by decide) (by decide)
    ⟨rfl, rfl⟩

/-! The attempt-counter ledger: preservation machinery. -/

theorem cdi_cons_started (i : Nat) (l : List (Ev M E D)) :
    countDispatchedId i (.started :: l) = countDispatchedId i l := by
  simp [countDispatchedId, List.countP_cons]

theorem cdi_cons_finished (i : Nat) (l : List (Ev M E D)) :
    countDispatchedId i (.finished :: l) = countDispatchedId i l := by
  simp [countDispatchedId, List.countP_cons]

theorem cdi_cons_processed (i : Nat) (d : D) (l : List (Ev M E D)) :
    countDispatchedId i (.processed d :: l) = countDispatchedId i l := by
  simp [countDispatchedId, List.countP_cons]

theorem cdi_cons_error (i : Nat) (e : E) (l : List (Ev M E D)) :
    countDispatchedId i (.error e :: l) = countDispatchedId i l := by
  simp [countDispatchedId, List.countP_cons]

theorem cdi_cons_retry (i : Nat) (m : M) (a dl : Nat)
    (l : List (Ev M E D)) :
    countDispatchedId i (.retry m a dl :: l) = countDispatchedId i l := by
  simp [countDispatchedId, List.countP_cons]

theorem cdi_cons_dispatched (i j : Nat) (m : M) (a : Nat)
    (l : List (Ev M E D)) :
    countDispatchedId i ((.dispatched j m a : Ev M E D) :: l) =
      countDispatchedId i l + if j = i then 1 else 0 := by
  simp [countDispatchedId, List.countP_cons]

theorem countP_id_zero {l : List (Pkt M)} {n : Nat}
    (h : ∀ p ∈ l, p.id < n) :
    l.countP (fun p => p.id == n) = 0 := by
  rw [List.countP_eq_zero]
  intro p hp
  simp [Nat.ne_of_lt (h p hp)]

theorem ledgerC_consEv {Q I T L : List (Pkt M)} {ev : List (Ev M E D)}
    {n : Nat} (e : Ev M E D)
    (hcdi : ∀ i, countDispatchedId i (e :: ev) = countDispatchedId i ev)
    (h : ledgerC Q I T L ev n) : ledgerC Q I T L (e :: ev) n := by
  obtain ⟨h1, h2, h3, h4, h5⟩ := h
  refine ⟨fun p hp => ?_, h2, h3, fun i hi => ?_, h5⟩
  · rw [hcdi p.id]
    exact h1 p hp
  · rw [hcdi i]
    exact h4 i hi

theorem ledgerC_removeInflight {Q iT iD T L : List (Pkt M)} {p : Pkt M}
    {ev : List (Ev M E D)} {n : Nat}
    (h : ledgerC Q (iT ++ p :: iD) T L ev n) :
    ledgerC Q (iT ++ iD) T L ev n ∧
      (Q ++ (iT ++ iD) ++ T ++ L).countP (fun q => q.id == p.id) = 0 ∧
      p.attempt = countDispatchedId p.id ev ∧ p.id < n ∧
      1 ≤ p.attempt := by
  obtain ⟨h1, h2, h3, h4, h5⟩ := h
  have hpmem : p ∈ Q ++ (iT ++ p :: iD) ++ T ++ L := by
    simp
  have hocc := h3 p.id
  have hocc2 : (Q ++ (iT ++ iD) ++ T ++ L).countP
      (fun q => q.id == p.id) = 0 := by
    simp only [List.countP_append, List.countP_cons, beq_self_eq_true,
      if_true] at hocc ⊢
    omega
  refine ⟨⟨fun q hq => h1 q ?_, fun q hq => h2 q ?_, fun i => ?_, h4,
    fun q hq => h5 q ?_⟩, hocc2, h1 p hpmem, h2 p hpmem, h5 p (by simp)⟩
  · simp only [List.mem_append, List.mem_cons] at hq ⊢
    tauto
  · simp only [List.mem_append, List.mem_cons] at hq ⊢
    tauto
  · have := h3 i
    simp only [List.countP_append, List.countP_cons] at this ⊢
    omega
  · simp only [List.mem_append, List.mem_cons] at hq ⊢
    tauto

theorem ledgerC_dispatch {I T L : List (Pkt M)} {ev : List (Ev M E D)}
    {n : Nat} {p : Pkt M} {rest : List (Pkt M)}
    (h : ledgerC (p :: rest) I T L ev n) :
    ledgerC rest (I ++ [⟨p.id, p.message, p.attempt + 1⟩]) T L
      ((.dispatched p.id p.message (p.attempt + 1) : Ev M E D) :: ev)
      n := by
  obtain ⟨h1, h2, h3, h4, h5⟩ := h
  have hpmem : p ∈ (p :: rest) ++ I ++ T ++ L := by
    simp
  have hocc := h3 p.id
  have hz : rest.countP (fun q => q.id == p.id) = 0 ∧
      I.countP (fun q => q.id == p.id) = 0 ∧
      T.countP (fun q => q.id == p.id) = 0 ∧
      L.countP (fun q => q.id == p.id) = 0 := by
    simp only [List.countP_append, List.countP_cons, beq_self_eq_true,
      if_true] at hocc
    refine ⟨by omega, by omega, by omega, by omega⟩
  obtain ⟨hz1, hz2, hz3, hz4⟩ := hz
  have hne : ∀ q : Pkt M, (q ∈ rest ∨ q ∈ I ∨ q ∈ T ∨ q ∈ L) →
      ¬q.id = p.id := by
    intro q hqmem hqe
    have hbe : (q.id == p.id) = true := by
      rw [hqe]
      exact beq_self_eq_true p.id
    rcases hqmem with hm | hm | hm | hm
    · have hone : 0 < rest.countP (fun q => q.id == p.id) :=
        List.countP_pos.mpr ⟨q, hm, hbe⟩
      omega
    · have hone : 0 < I.countP (fun q => q.id == p.id) :=
        List.countP_pos.mpr ⟨q, hm, hbe⟩
      omega
    · have hone : 0 < T.countP (fun q => q.id == p.id) :=
        List.countP_pos.mpr ⟨q, hm, hbe⟩
      omega
    · have hone : 0 < L.countP (fun q => q.id == p.id) :=
        List.countP_pos.mpr ⟨q, hm, hbe⟩
      omega
  refine ⟨fun q hq => ?_, fun q hq => ?_, fun i => ?_, fun i hi => ?_,
    fun q hq => ?_⟩
  · rw [cdi_cons_dispatched]
    simp only [List.mem_append, List.mem_singleton] at hq
    rcases hq with ((hm | hm) | hm) | hm
    · rw [if_neg (fun he => hne q (Or.inl hm) he.symm)]
      exact h1 q (by simp [hm])
    · rcases hm with hm | hm
      · rw [if_neg (fun he => hne q (Or.inr (Or.inl hm)) he.symm)]
        exact h1 q (by simp [hm])
      · subst hm
        rw [if_pos rfl]
        have := h1 p hpmem
        simp only at this ⊢
        omega
    · rw [if_neg (fun he => hne q (Or.inr (Or.inr (Or.inl hm))) he.symm)]
      exact h1 q (by simp [hm])
    · rw [if_neg (fun he => hne q (Or.inr (Or.inr (Or.inr hm))) he.symm)]
      exact h1 q (by simp [hm])
  · simp only [List.mem_append, List.mem_singleton] at hq
    rcases hq with ((hm | hm) | hm) | hm
    · exact h2 q (by simp [hm])
    · rcases hm with hm | hm
      · exact h2 q (by simp [hm])
      · subst hm
        exact h2 p hpmem
    · exact h2 q (by simp [hm])
    · exact h2 q (by simp [hm])
  · have := h3 i
    simp only [List.countP_append, List.countP_cons] at this ⊢
    simp only [List.countP_nil]
    omega
  · rw [cdi_cons_dispatched, if_neg (by
      have := h2 p hpmem
      omega)]
    exact h4 i hi
  · simp only [List.mem_append, List.mem_singleton] at hq
    rcases hq with hm | hm
    · exact h5 q hm
    · subst hm
      simp

theorem ledgerC_retryMove {Q I T L : List (Pkt M)} {ev : List (Ev M E D)}
    {n : Nat} {p : Pkt M}
    (h : ledgerC Q I T L ev n)
    (hocc : (Q ++ I ++ T ++ L).countP (fun q => q.id == p.id) = 0)
    (hatt : p.attempt = countDispatchedId p.id ev)
    (hid : p.id < n) :
    ledgerC Q I (T ++ [p]) L ev n := by
  obtain ⟨h1, h2, h3, h4, h5⟩ := h
  refine ⟨fun q hq => ?_, fun q hq => ?_, fun i => ?_, h4, h5⟩
  · simp only [List.mem_append, List.mem_singleton] at hq
    rcases hq with ((hm | hm) | hm | hm) | hm
    · exact h1 q (by simp [hm])
    · exact h1 q (by simp [hm])
    · exact h1 q (by simp [hm])
    · subst hm
      exact hatt
    · exact h1 q (by simp [hm])
  · simp only [List.mem_append, List.mem_singleton] at hq
    rcases hq with ((hm | hm) | hm | hm) | hm
    · exact h2 q (by simp [hm])
    · exact h2 q (by simp [hm])
    · exact h2 q (by simp [hm])
    · subst hm
      exact hid
    · exact h2 q (by simp [hm])
  · have ht := h3 i
    by_cases hpi : p.id = i
    · subst hpi
      simp only [List.countP_append, List.countP_cons, beq_self_eq_true,
        if_true, List.countP_nil] at hocc ht ⊢
      omega
    · have := h3 i
      simp only [List.countP_append, List.countP_cons, List.countP_nil]
        at this ⊢
      have hif : (if (p.id == i) = true then 1 else 0) = 0 := by
        simp [hpi]
      simp only [List.countP_singleton] at *
      simp [hpi]
      omega

theorem ledgerC_dlqAdd {Q I T L : List (Pkt M)} {ev : List (Ev M E D)}
    {n : Nat} (m : M)
    (h : ledgerC Q I T L ev n) :
    ledgerC Q I T (L ++ [⟨n, m, 0⟩]) ev (n + 1) := by
  obtain ⟨h1, h2, h3, h4, h5⟩ := h
  refine ⟨fun q hq => ?_, fun q hq => ?_, fun i => ?_,
    fun i hi => h4 i (by omega), h5⟩
  · simp only [List.mem_append, List.mem_singleton] at hq
    rcases hq with ((hm | hm) | hm) | hm | hm
    · exact h1 q (by simp [hm])
    · exact h1 q (by simp [hm])
    · exact h1 q (by simp [hm])
    · exact h1 q (by simp [hm])
    · subst hm
      show (0 : Nat) = countDispatchedId n ev
      rw [h4 n (by omega)]
  · simp only [List.mem_append, List.mem_singleton] at hq
    rcases hq with ((hm | hm) | hm) | hm | hm
    · exact Nat.lt_succ_of_lt (h2 q (by simp [hm]))
    · exact Nat.lt_succ_of_lt (h2 q (by simp [hm]))
    · exact Nat.lt_succ_of_lt (h2 q (by simp [hm]))
    · exact Nat.lt_succ_of_lt (h2 q (by simp [hm]))
    · subst hm
      exact Nat.lt_succ_self n
  · have ht := h3 i
    by_cases hni : n = i
    · subst hni
      have hz : (Q ++ I ++ T ++ L).countP (fun q => q.id == n) = 0 :=
        countP_id_zero h2
      simp only [List.countP_append, List.countP_cons, beq_self_eq_true,
        if_true, List.countP_nil] at hz ⊢
      omega
    · simp only [List.countP_append, List.countP_cons,
        List.countP_nil] at ht ⊢
      simp [hni]
      omega

theorem ledgerC_addPkt {Q I T L : List (Pkt M)} {ev : List (Ev M E D)}
    {n : Nat} (m : M)
    (h : ledgerC Q I T L ev n) :
    ledgerC (Q ++ [⟨n, m, 0⟩]) I T L ev (n + 1) := by
  obtain ⟨h1, h2, h3, h4, h5⟩ := h
  refine ⟨fun q hq => ?_, fun q hq => ?_, fun i => ?_,
    fun i hi => h4 i (by omega), h5⟩
  · simp only [List.mem_append, List.mem_singleton] at hq
    rcases hq with (((hm | hm) | hm) | hm) | hm
    · exact h1 q (by simp [hm])
    · subst hm
      show (0 : Nat) = countDispatchedId n ev
      rw [h4 n (by omega)]
    · exact h1 q (by simp [hm])
    · exact h1 q (by simp [hm])
    · exact h1 q (by simp [hm])
  · simp only [List.mem_append, List.mem_singleton] at hq
    rcases hq with (((hm | hm) | hm) | hm) | hm
    · exact Nat.lt_succ_of_lt (h2 q (by simp [hm]))
    · subst hm
      exact Nat.lt_succ_self n
    · exact Nat.lt_succ_of_lt (h2 q (by simp [hm]))
    · exact Nat.lt_succ_of_lt (h2 q (by simp [hm]))
    · exact Nat.lt_succ_of_lt (h2 q (by simp [hm]))
  · have ht := h3 i
    by_cases hni : n = i
    · subst hni
      have hz : (Q ++ I ++ T ++ L).countP (fun q => q.id == n) = 0 :=
        countP_id_zero h2
      simp only [List.countP_append, List.countP_cons, beq_self_eq_true,
        if_true, List.countP_nil] at hz ⊢
      omega
    · simp only [List.countP_append, List.countP_cons,
        List.countP_nil] at ht ⊢
      simp [hni]
      omega

theorem ledgerC_timerMove {Q I tT tD L : List (Pkt M)} {p : Pkt M}
    {ev : List (Ev M E D)} {n : Nat}
    (h : ledgerC Q I (tT ++ p :: tD) L ev n) :
    ledgerC (Q ++ [p]) I (tT ++ tD) L ev n := by
  obtain ⟨h1, h2, h3, h4, h5⟩ := h
  refine ⟨fun q hq => h1 q ?_, fun q hq => h2 q ?_, fun i => ?_, h4, h5⟩
  · simp only [List.mem_append, List.mem_singleton, List.mem_cons]
      at hq ⊢
    tauto
  · simp only [List.mem_append, List.mem_singleton, List.mem_cons]
      at hq ⊢
    tauto
  · have := h3 i
    simp only [List.countP_append, List.countP_cons,
      List.countP_nil] at this ⊢
    omega

theorem ledger_def (s : St M E D) :
    ledger s ↔ ledgerC s.queue (inflightPkts s) (timerPkts s) s.dlq
      s.events s.nextId :=
  Iff.rfl

theorem ledger_transport {s s' : St M E D}
    (hQ : s'.queue = s.queue)
    (hI : inflightPkts s' = inflightPkts s)
    (hT : timerPkts s' = timerPkts s)
    (hL : s'.dlq = s.dlq)
    (hN : s'.nextId = s.nextId)
    (hEV : ∀ i, countDispatchedId i s'.events =
      countDispatchedId i s.events)
    (h : ledger s) : ledger s' := by
  obtain ⟨h1, h2, h3, h4, h5⟩ := h
  show ledgerC s'.queue (inflightPkts s') (timerPkts s') s'.dlq s'.events
    s'.nextId
  rw [hQ, hI, hT, hL, hN]
  exact ⟨fun p hp => by rw [hEV p.id]; exact h1 p hp, h2, h3,
    fun i hi => by rw [hEV i]; exact h4 i hi, h5⟩

theorem ledger_spawnFiber (s0 : St M E D) (w : Nat) (hld : ledger s0) :
    ledger (spawnFiber s0 w) := by
  rcases Bool.eq_false_or_eq_true (s0.isProcessing || anyAwaitingRetry s0)
    with hc | hc
  case inr =>
    rw [spawnFiber_dead s0 w hc]
    exact hld
  case inl =>
    obtain hq | ⟨p, rest, hq⟩ :
        s0.queue = [] ∨ ∃ p rest, s0.queue = p :: rest := by
      cases s0.queue
      · exact Or.inl rfl
      · exact Or.inr ⟨_, _, rfl⟩
    · rw [spawnFiber_empty s0 w hq hc]
      rcases Bool.eq_false_or_eq_true
          (s0.isProcessing && !anyAwaitingRetry s0) with hif | hif
      case inr =>
        rw [if_neg (by simp [hif])]
        refine ledger_transport (s := s0) rfl ?_ rfl rfl rfl
          (fun i => rfl) hld
        simp [inflightPkts, fiberPkt]
      case inl =>
        rw [if_pos hif]
        refine ledger_transport (s := s0) rfl ?_ rfl rfl rfl
          (fun i => cdi_cons_finished i s0.events) hld
        simp [inflightPkts, emitFinished, fiberPkt]
    · rw [spawnFiber_dispatch s0 w p rest hq hc]
      have hld2 : ledgerC (p :: rest) (inflightPkts s0) (timerPkts s0)
          s0.dlq s0.events s0.nextId := by
        have := hld
        rw [ledger, hq] at this
        exact this
      have hres := ledgerC_dispatch hld2
      rw [ledger_def]
      rw [show inflightPkts
          { s0 with
              queue := rest,
              working := s0.working.set w true,
              events := Ev.dispatched p.id p.message (p.attempt + 1) ::
                s0.events,
              fibers := s0.fibers ++
                [⟨w, .awaitingProc ⟨p.id, p.message, p.attempt + 1⟩⟩] } =
          inflightPkts s0 ++ [⟨p.id, p.message, p.attempt + 1⟩] from by
        simp [inflightPkts, fiberPkt]]
      exact hres

theorem ledger_resolveFiber (cfg : Cfg M E D) (s0 : St M E D) (w : Nat)
    (p : Pkt M) (hld : ledger s0)
    (hocc : (s0.queue ++ inflightPkts s0 ++ timerPkts s0 ++
      s0.dlq).countP (fun q => q.id == p.id) = 0)
    (hatt : p.attempt = countDispatchedId p.id s0.events)
    (hid : p.id < s0.nextId) :
    ledger { resolve cfg s0 w p with
      fibers := (resolve cfg s0 w p).fibers ++ [⟨w, .ready⟩] } := by
  cases hpr : cfg.proc p.message with
  | ok d =>
    have hres : resolve cfg s0 w p =
        { emitProcessed d s0 with
            working := (emitProcessed d s0).working.set w false } := by
      simp [resolve, hpr]
    rw [hres]
    rcases Bool.eq_false_or_eq_true
        (!hasMessages { s0 with events := Ev.processed d :: s0.events } &&
          !anyAwaitingRetry { s0 with
            events := Ev.processed d :: s0.events }) with hif | hif
    case inr =>
      have hcond : emitProcessed d s0 =
          { s0 with events := Ev.processed d :: s0.events } := by
        rw [emitProcessed]
        simp only [hif]
        rfl
      rw [hcond]
      refine ledger_transport (s := s0) rfl ?_ rfl rfl rfl
        (fun i => cdi_cons_processed i d s0.events) hld
      simp [inflightPkts, fiberPkt]
    case inl =>
      have hcond : emitProcessed d s0 =
          emitFinished { s0 with
            events := Ev.processed d :: s0.events } := by
        rw [emitProcessed]
        simp only [hif]
        rfl
      rw [hcond]
      refine ledger_transport (s := s0) rfl ?_ rfl rfl rfl
        (fun i => ?_) hld
      · simp [inflightPkts, emitFinished, fiberPkt]
      · show countDispatchedId i
          (Ev.finished :: Ev.processed d :: s0.events) = _
        rw [cdi_cons_finished, cdi_cons_processed]
  | error e =>
    rcases Nat.lt_or_ge p.attempt cfg.redriveCount with hlt | hge
    · have hres : resolve cfg s0 w p =
          { s0 with
              events := Ev.retry p.message p.attempt
                (cfg.redriveDelay p.attempt p.message) :: s0.events,
              awaitRetry := s0.awaitRetry.set w true,
              timers := s0.timers ++ [.retryAppend p w],
              working := s0.working.set w false } := by
        simp [resolve, hpr, hlt, emitRetry]
      rw [hres]
      have hmv := ledgerC_retryMove hld hocc hatt hid
      have hmv2 := ledgerC_consEv
        (Ev.retry p.message p.attempt
          (cfg.redriveDelay p.attempt p.message))
        (fun i => cdi_cons_retry i p.message p.attempt
          (cfg.redriveDelay p.attempt p.message) s0.events) hmv
      rw [ledger_def]
      have hTeq : timerPkts
          { { s0 with
              events := Ev.retry p.message p.attempt
                (cfg.redriveDelay p.attempt p.message) :: s0.events,
              awaitRetry := s0.awaitRetry.set w true,
              timers := s0.timers ++ [Timer.retryAppend p w],
              working := s0.working.set w false } with
            fibers := s0.fibers ++ [⟨w, FiberPC.ready⟩] } =
          timerPkts s0 ++ [p] := by
        simp [timerPkts, timerPkt]
      have hIeq : inflightPkts
          { { s0 with
              events := Ev.retry p.message p.attempt
                (cfg.redriveDelay p.attempt p.message) :: s0.events,
              awaitRetry := s0.awaitRetry.set w true,
              timers := s0.timers ++ [Timer.retryAppend p w],
              working := s0.working.set w false } with
            fibers := s0.fibers ++ [⟨w, FiberPC.ready⟩] } =
          inflightPkts s0 := by
        simp [inflightPkts, fiberPkt]
      rw [hTeq, hIeq]
      exact hmv2
    · have hres : resolve cfg s0 w p =
          { (if cfg.hasDlq then dlqAdd p.message (emitError cfg e s0)
             else emitError cfg e s0) with
              working :=
                (if cfg.hasDlq then dlqAdd p.message (emitError cfg e s0)
                 else emitError cfg e s0).working.set w false } := by
        simp [resolve, hpr, Nat.not_lt_of_ge hge]
      rw [hres]
      have hEVerr : ∀ i, countDispatchedId i (emitError cfg e s0).events =
          countDispatchedId i s0.events := by
        intro i
        rw [emitError]
        rcases Bool.eq_false_or_eq_true cfg.stopOnError with hso | hso
        · rw [if_pos hso]
          show countDispatchedId i
            (Ev.finished :: Ev.error e :: s0.events) = _
          rw [cdi_cons_finished, cdi_cons_error]
        · rw [if_neg (by simp [hso])]
          exact cdi_cons_error i e s0.events
      have hE1 : (emitError cfg e s0).queue = s0.queue := by
        rw [emitError]
        split <;> rfl
      have hE2 : inflightPkts (emitError cfg e s0) = inflightPkts s0 := by
        rw [emitError]
        split <;> rfl
      have hE3 : timerPkts (emitError cfg e s0) = timerPkts s0 := by
        rw [emitError]
        split <;> rfl
      have hE4 : (emitError cfg e s0).dlq = s0.dlq := by
        rw [emitError]
        split <;> rfl
      have hE5 : (emitError cfg e s0).nextId = s0.nextId := by
        rw [emitError]
        split <;> rfl
      have hlderr : ledger (emitError cfg e s0) :=
        ledger_transport (s := s0) hE1 hE2 hE3 hE4 hE5 hEVerr hld
      rcases Bool.eq_false_or_eq_true cfg.hasDlq with hdl | hdl
      case inr =>
        rw [if_neg (by simp [hdl])]
        refine ledger_transport (s := emitError cfg e s0) rfl ?_ rfl rfl
          rfl (fun i => rfl) hlderr
        simp [inflightPkts, fiberPkt]
      case inl =>
        rw [if_pos hdl]
        have hadd : ledgerC (emitError cfg e s0).queue
            (inflightPkts (emitError cfg e s0))
            (timerPkts (emitError cfg e s0))
            ((emitError cfg e s0).dlq ++
              [⟨(emitError cfg e s0).nextId, p.message, 0⟩])
            (emitError cfg e s0).events
            ((emitError cfg e s0).nextId + 1) :=
          ledgerC_dlqAdd p.message hlderr
        rw [ledger_def]
        have hIeq2 : inflightPkts
            { dlqAdd p.message (emitError cfg e s0) with
              fibers := (dlqAdd p.message (emitError cfg e s0)).fibers ++
                [⟨w, FiberPC.ready⟩],
              working := (dlqAdd p.message
                (emitError cfg e s0)).working.set w false } =
            inflightPkts (emitError cfg e s0) := by
          simp [inflightPkts, dlqAdd, fiberPkt]
        have hTeq2 : timerPkts
            { dlqAdd p.message (emitError cfg e s0) with
              fibers := (dlqAdd p.message (emitError cfg e s0)).fibers ++
                [⟨w, FiberPC.ready⟩],
              working := (dlqAdd p.message
                (emitError cfg e s0)).working.set w false } =
            timerPkts (emitError cfg e s0) := by
          simp [timerPkts, dlqAdd]
        rw [hIeq2, hTeq2]
        exact hadd

theorem list_split_of_getElem {α : Type} (l : List α) (j : Nat) (a : α)
    (h : l[j]? = some a) : l = l.take j ++ a :: l.drop (j + 1) := by
  rcases List.getElem?_eq_some_iff.mp h with ⟨hl, he⟩
  conv_lhs => rw [← List.take_append_drop j l]
  rw [List.drop_eq_getElem_cons hl, he]

theorem filterMap_eraseIdx_split {α β : Type} (f : α → Option β)
    (l : List α) (j : Nat) :
    (l.eraseIdx j).filterMap f =
      (l.take j).filterMap f ++ (l.drop (j + 1)).filterMap f := by
  rw [List.eraseIdx_eq_take_drop_succ, List.filterMap_append]

theorem filterMap_split_some {α β : Type} (f : α → Option β) (l : List α)
    (j : Nat) (a : α) (b : β) (h : l[j]? = some a) (hf : f a = some b) :
    l.filterMap f = (l.take j).filterMap f ++ b ::
      (l.drop (j + 1)).filterMap f := by
  conv_lhs => rw [list_split_of_getElem l j a h]
  rw [List.filterMap_append, List.filterMap_cons, hf]

theorem filterMap_split_none {α β : Type} (f : α → Option β) (l : List α)
    (j : Nat) (a : α) (h : l[j]? = some a) (hf : f a = none) :
    l.filterMap f = (l.eraseIdx j).filterMap f := by
  conv_lhs => rw [list_split_of_getElem l j a h]
  rw [List.filterMap_append, List.filterMap_cons, hf,
    filterMap_eraseIdx_split]

theorem ledgerC_dropQueue {Q I T L : List (Pkt M)} {ev : List (Ev M E D)}
    {n : Nat} (h : ledgerC Q I T L ev n) : ledgerC [] I T L ev n := by
  obtain ⟨h1, h2, h3, h4, h5⟩ := h
  refine ⟨fun p hp => h1 p ?_, fun p hp => h2 p ?_, fun i => ?_, h4, h5⟩
  · simp only [List.nil_append, List.mem_append] at hp
    simp only [List.mem_append]
    tauto
  · simp only [List.nil_append, List.mem_append] at hp
    simp only [List.mem_append]
    tauto
  · have := h3 i
    simp only [List.countP_append, List.countP_nil] at this ⊢
    omega

theorem ledger_spawnLoop (ws : List Nat) (s : St M E D) (hld : ledger s) :
    ledger (spawnLoop ws s) :=
  spawnLoop_preserve ledger (fun s w _ h => ledger_spawnFiber s w h) ws s
    hld

theorem ledger_startProcessing (cfg : Cfg M E D) (s : St M E D)
    (hld : ledger s) : ledger (startProcessing cfg s) := by
  rcases Bool.eq_false_or_eq_true (s.isProcessing && !anyAwaitingRetry s)
    with hc | hc
  case inl =>
    rw [startProcessing, if_pos hc]
    exact hld
  case inr =>
    rw [startProcessing, if_neg (by simp [hc])]
    show ledger (if !hasMessages (emitStarted s) then
      emitFinished (emitStarted s)
      else spawnLoop (List.range cfg.workers)
        { emitStarted s with forceStopped := false, isProcessing := true })
    rcases Bool.eq_false_or_eq_true (!hasMessages (emitStarted s))
      with hm | hm
    case inl =>
      rw [if_pos hm]
      exact ledger_transport (s := s) rfl rfl rfl rfl rfl
        (fun i => (cdi_cons_finished i (Ev.started :: s.events)).trans
          (cdi_cons_started i s.events)) hld
    case inr =>
      rw [if_neg (by simp [hm])]
      exact ledger_spawnLoop _ _
        (ledger_transport (s := s) rfl rfl rfl rfl rfl
          (fun i => cdi_cons_started i s.events) hld)

theorem ledger_stop (s : St M E D) (hld : ledger s) : ledger (stop s) := by
  have hstep : stop s =
      if !hasMessages ({ s with isProcessing := false } : St M E D) then
        emitFinished { s with isProcessing := false }
      else { s with isProcessing := false } := rfl
  rw [hstep]
  rcases Bool.eq_false_or_eq_true
      (!hasMessages ({ s with isProcessing := false } : St M E D))
    with hm | hm
  case inl =>
    rw [if_pos hm]
    exact ledger_transport (s := s) rfl rfl rfl rfl rfl
      (fun i => cdi_cons_finished i s.events) hld
  case inr =>
    rw [if_neg (by simp [hm])]
    exact ledger_transport (s := s) rfl rfl rfl rfl rfl
      (fun i => rfl) hld

theorem ledger_clear (s : St M E D) (hld : ledger s) :
    ledger (clear s) := by
  have hld2 : ledgerC ([] : List (Pkt M)) (inflightPkts s) (timerPkts s)
      s.dlq s.events s.nextId := ledgerC_dropQueue hld
  have hld3 := ledgerC_consEv (Ev.finished : Ev M E D)
    (fun i => cdi_cons_finished i s.events) hld2
  rw [ledger_def]
  exact hld3

theorem ledger_add (cfg : Cfg M E D) (m : M) (s : St M E D)
    (hld : ledger s) : ledger (add cfg m s) := by
  have hld1 : ledger ({ s with
      queue := s.queue ++ [⟨s.nextId, m, 0⟩],
      nextId := s.nextId + 1 } : St M E D) := by
    rw [ledger_def]
    exact ledgerC_addPkt m hld
  have hstep : add cfg m s =
      if cfg.autoStart then
        startProcessing cfg { s with
          queue := s.queue ++ [⟨s.nextId, m, 0⟩], nextId := s.nextId + 1 }
      else { s with
        queue := s.queue ++ [⟨s.nextId, m, 0⟩],
        nextId := s.nextId + 1 } := rfl
  rw [hstep]
  split
  · exact ledger_startProcessing cfg _ hld1
  · exact hld1

theorem ledger_runFiberTask (cfg : Cfg M E D) (s : St M E D) (j : Nat)
    (hld : ledger s) : ledger (runFiberTask cfg s j) := by
  cases hg : s.fibers[j]? with
  | none =>
    rw [runFiberTask_get_none cfg s j hg]
    exact hld
  | some f =>
    obtain ⟨w, pc⟩ := f
    cases pc with
    | ready =>
      rw [runFiberTask_get_ready cfg s j w hg]
      refine ledger_spawnFiber _ w ?_
      refine ledger_transport (s := s) rfl ?_ rfl rfl rfl
        (fun i => rfl) hld
      exact (filterMap_split_none fiberPkt s.fibers j ⟨w, FiberPC.ready⟩
        hg rfl).symm
    | awaitingProc p =>
      rw [runFiberTask_get_await cfg s j w p hg]
      have hsplit := filterMap_split_some fiberPkt s.fibers j
        ⟨w, FiberPC.awaitingProc p⟩ p hg rfl
      have herase := filterMap_eraseIdx_split fiberPkt s.fibers j
      have hld2 : ledgerC s.queue
          ((s.fibers.take j).filterMap fiberPkt ++
            p :: (s.fibers.drop (j + 1)).filterMap fiberPkt)
          (timerPkts s) s.dlq s.events s.nextId := by
        have h0 := hld
        rw [ledger_def, inflightPkts, hsplit] at h0
        exact h0
      obtain ⟨hrem, hocc, hatt, hid, hge1⟩ := ledgerC_removeInflight hld2
      refine ledger_resolveFiber cfg
        { s with fibers := s.fibers.eraseIdx j } w p ?_ ?_ hatt hid
      · rw [ledger_def]
        rw [show inflightPkts
            ({ s with fibers := s.fibers.eraseIdx j } : St M E D) =
            (s.fibers.take j).filterMap fiberPkt ++
              (s.fibers.drop (j + 1)).filterMap fiberPkt from herase]
        exact hrem
      · rw [show inflightPkts
            ({ s with fibers := s.fibers.eraseIdx j } : St M E D) =
            (s.fibers.take j).filterMap fiberPkt ++
              (s.fibers.drop (j + 1)).filterMap fiberPkt from herase]
        exact hocc

theorem ledger_runTimerTask (cfg : Cfg M E D) (s : St M E D) (j : Nat)
    (hld : ledger s) : ledger (runTimerTask cfg s j) := by
  cases hg : s.timers[j]? with
  | none =>
    rw [runTimerTask_get_none cfg s j hg]
    exact hld
  | some t =>
    rw [runTimerTask_get_some cfg s j t hg]
    cases t with
    | retryAppend p w =>
      have hsplit := filterMap_split_some timerPkt s.timers j
        (Timer.retryAppend p w) p hg rfl
      have herase := filterMap_eraseIdx_split timerPkt s.timers j
      have hld2 : ledgerC s.queue (inflightPkts s)
          ((s.timers.take j).filterMap timerPkt ++
            p :: (s.timers.drop (j + 1)).filterMap timerPkt)
          s.dlq s.events s.nextId := by
        have h0 := hld
        rw [ledger_def, timerPkts, hsplit] at h0
        exact h0
      have hmv := ledgerC_timerMove hld2
      rw [ledger_def]
      have hT : timerPkts (runTimer cfg
          ({ s with timers := s.timers.eraseIdx j } : St M E D)
          (Timer.retryAppend p w)) =
          (s.timers.take j).filterMap timerPkt ++
            (s.timers.drop (j + 1)).filterMap timerPkt := by
        show ((s.timers.eraseIdx j) ++ [Timer.retryResume w]).filterMap
          timerPkt = _
        rw [List.filterMap_append, herase]
        simp [timerPkt]
      rw [hT]
      exact hmv
    | retryResume w =>
      have hT0 : timerPkts
          ({ s with timers := s.timers.eraseIdx j } : St M E D) =
          timerPkts s :=
        (filterMap_split_none timerPkt s.timers j (Timer.retryResume w)
          hg rfl).symm
      have hld0 : ledger ({ s with timers := s.timers.eraseIdx j } :
          St M E D) :=
        ledger_transport (s := s) rfl rfl hT0 rfl rfl (fun i => rfl) hld
      have hld1 := ledger_startProcessing cfg _ hld0
      exact ledger_transport
        (s := startProcessing cfg
          { s with timers := s.timers.eraseIdx j })
        rfl rfl rfl rfl rfl (fun i => rfl) hld1

theorem ledger_step (cfg : Cfg M E D) (s : St M E D) (t : Task)
    (hld : ledger s) : ledger (step cfg s t) := by
  cases t with
  | fiber j => exact ledger_runFiberTask cfg s j hld
  | timer j => exact ledger_runTimerTask cfg s j hld

theorem ledger_doAct (cfg : Cfg M E D) (s : St M E D) (a : Act M)
    (hld : ledger s) : ledger (doAct cfg s a) := by
  cases a with
  | task t => exact ledger_step cfg s t hld
  | addMsg m => exact ledger_add cfg m s hld
  | startOp => exact ledger_startProcessing cfg s hld
  | stopOp => exact ledger_stop s hld
  | clearOp => exact ledger_clear s hld

theorem ledger_runActs (cfg : Cfg M E D) (s : St M E D)
    (acts : List (Act M)) (hld : ledger s) :
    ledger (runActs cfg s acts) := by
  induction acts generalizing s with
  | nil => exact hld
  | cons a rest ih => exact ih (doAct cfg s a) (ledger_doAct cfg s a hld)

theorem seedPkts_mem (msgs : List M) :
    ∀ (i : Nat), ∀ p ∈ seedPkts msgs i,
      p.attempt = 0 ∧ i ≤ p.id ∧ p.id < i + msgs.length := by
  induction msgs with
  | nil =>
    intro i p hp
    simp [seedPkts] at hp
  | cons m rest ih =>
    intro i p hp
    simp only [seedPkts] at hp
    rcases List.mem_cons.mp hp with h | h
    · subst h
      exact ⟨rfl, Nat.le_refl i, by simp only [List.length_cons]; omega⟩
    · obtain ⟨h1, h2, h3⟩ := ih (i + 1) p h
      refine ⟨h1, by omega, ?_⟩
      simp only [List.length_cons]
      omega

theorem seedPkts_countP (msgs : List M) :
    ∀ (i k : Nat), (seedPkts msgs i).countP (fun p => p.id == k) ≤ 1 := by
  induction msgs with
  | nil =>
    intro i k
    simp [seedPkts]
  | cons m rest ih =>
    intro i k
    by_cases hik : i = k
    · subst hik
      have hz : (seedPkts rest (i + 1)).countP
          (fun p => p.id == i) = 0 := by
        rw [List.countP_eq_zero]
        intro p hp
        obtain ⟨_, h2, _⟩ := seedPkts_mem rest (i + 1) p hp
        simp only [beq_iff_eq]
        omega
      simp [seedPkts, List.countP_cons, hz]
    · simpa [seedPkts, List.countP_cons, hik] using ih (i + 1) k

theorem ledger_init (cfg : Cfg M E D) (msgs : List M) :
    ledger (init cfg msgs) := by
  have hbase :
      ledger
        ({ queue := seedPkts msgs 0
           isProcessing := false
           forceStopped := false
           working := List.replicate cfg.workers false
           awaitRetry := List.replicate cfg.workers false
           fibers := []
           timers := []
           events := []
           dlq := []
           nextId := msgs.length } : St M E D) := by
    rw [ledger_def]
    show ledgerC (seedPkts msgs 0) [] [] [] ([] : List (Ev M E D))
      msgs.length
    refine ⟨?_, ?_, ?_, ?_, ?_⟩
    · intro p hp
      simp only [List.append_nil] at hp
      obtain ⟨h1, _, _⟩ := seedPkts_mem msgs 0 p hp
      rw [h1]
      rfl
    · intro p hp
      simp only [List.append_nil] at hp
      obtain ⟨_, _, h3⟩ := seedPkts_mem msgs 0 p hp
      omega
    · intro i
      simp only [List.append_nil]
      exact seedPkts_countP msgs 0 i
    · intro i _
      rfl
    · intro p hp
      simp at hp
  have hgen : ∀ s0 : St M E D, ledger s0 →
      ledger (if cfg.autoStart && hasMessages s0 then
        startProcessing cfg s0 else s0) := by
    intro s0 h0
    split
    · exact ledger_startProcessing cfg s0 h0
    · exact h0
  exact hgen _ hbase

theorem resolve_cdi (cfg : Cfg M E D) (s : St M E D) (w : Nat) (p : Pkt M)
    (i : Nat) : countDispatchedId i (resolve cfg s w p).events =
      countDispatchedId i s.events := by
  have hE : ∀ (x : St M E D) (e : E),
      countDispatchedId i (emitError cfg e x).events =
        countDispatchedId i x.events := by
    intro x e
    rw [emitError]
    split
    · exact (cdi_cons_finished i (Ev.error e :: x.events)).trans
        (cdi_cons_error i e x.events)
    · exact cdi_cons_error i e x.events
  cases hpr : cfg.proc p.message with
  | ok d =>
    have hres : resolve cfg s w p =
        { emitProcessed d s with
          working := (emitProcessed d s).working.set w false } := by
      simp [resolve, hpr]
    rw [hres]
    show countDispatchedId i (emitProcessed d s).events =
      countDispatchedId i s.events
    rw [emitProcessed]
    split
    · exact (cdi_cons_finished i (Ev.processed d :: s.events)).trans
        (cdi_cons_processed i d s.events)
    · exact cdi_cons_processed i d s.events
  | error e =>
    rcases Nat.lt_or_ge p.attempt cfg.redriveCount with hlt | hge
    · have hres : resolve cfg s w p = { { { { emitRetry p.message p.attempt
          (cfg.redriveDelay p.attempt p.message) s with
            awaitRetry := s.awaitRetry.set w true } with
          timers := s.timers ++ [Timer.retryAppend p w] } with
        working := s.working.set w false } with
          working := s.working.set w false } := by
        simp [resolve, hpr, hlt, emitRetry]
      rw [hres]
      exact cdi_cons_retry i p.message p.attempt
        (cfg.redriveDelay p.attempt p.message) s.events
    · rcases Bool.eq_false_or_eq_true cfg.hasDlq with hdl | hdl
      case inl =>
        have hres : resolve cfg s w p =
            { dlqAdd p.message (emitError cfg e s) with
              working := (dlqAdd p.message
                (emitError cfg e s)).working.set w false } := by
          simp [resolve, hpr, Nat.not_lt.mpr hge, hdl]
        rw [hres]
        exact hE s e
      case inr =>
        have hres : resolve cfg s w p =
            { emitError cfg e s with
              working := (emitError cfg e s).working.set w false } := by
          simp [resolve, hpr, Nat.not_lt.mpr hge, hdl]
        rw [hres]
        exact hE s e

/-- **C9**: in every state reachable from construction by any sequence of
engine operations and scheduler steps, each live packet's `attempt`
counter equals the number of processor dispatches recorded for its
identity — the counter is incremented exactly once per dispatch
(`messagePacket.attempt++` directly before the processor call) and never
decremented; every in-flight packet has been dispatched at least once; and
the resolution transition itself (success, retry scheduling, or the
error/dead-letter route) records no further dispatch, so a terminal
outcome is reached strictly after the increment for every attempt made on
the item. -/
theorem C9_attempt_ledger (cfg : Cfg M E D) (msgs : List M)
    (acts : List (Act M)) :
    (∀ p ∈ livePkts (runActs cfg (init cfg msgs) acts),
      p.attempt =
        countDispatchedId p.id
          (runActs cfg (init cfg msgs) acts).events) ∧
    (∀ p ∈ inflightPkts (runActs cfg (init cfg msgs) acts),
      1 ≤ p.attempt) ∧
    (∀ w p i, countDispatchedId i
        (resolve cfg (runActs cfg (init cfg msgs) acts) w p).events =
      countDispatchedId i (runActs cfg (init cfg msgs) acts).events) := by
  have hld := ledger_runActs cfg (init cfg msgs) acts
    (ledger_init cfg msgs)
  obtain ⟨h1, h2, h3, h4, h5⟩ := hld
  refine ⟨fun p hp => h1 p hp, h5, fun w p i => resolve_cdi cfg _ w p i⟩

/-- Witness for C9 at a concrete input: one seeded item, no action taken,
the seeded packet is live with attempt 0 and zero recorded dispatches. -/
theorem C9_attempt_ledger_witness :
    (⟨0, 5, 0⟩ : Pkt Nat).attempt =
      countDispatchedId 0
        (runActs
          (⟨fun m => .error m, 1, 0, fun _ _ => 0, false, false, false⟩ :
            Cfg Nat Nat Nat)
          (init (⟨fun m => .error m, 1, 0, fun _ _ => 0, false, false,
            false⟩ : Cfg Nat Nat Nat) [5]) []).events :=
  (C9_attempt_ledger
    (⟨fun m => .error m, 1, 0, fun _ _ => 0, false, false, false⟩ :
      Cfg Nat Nat Nat) [5] []).1 ⟨0, 5, 0⟩ (by decide)

/-- Witness for C10 at a concrete input: a short run with an error under
`stopOnError` (the only writer of the flag), starting from flag values
true and false. -/
theorem C10_forceStopped_write_only_witness :
    clearFS
      (runActs (⟨fun m => .error m, 1, 0, fun _ _ => 0, true, true, false⟩ :
          Cfg Nat Nat Nat)
        { init (⟨fun m => .error m, 1, 0, fun _ _ => 0, true, true, false⟩ :
            Cfg Nat Nat Nat) [5] with forceStopped := true }
        [.addMsg 6, .task (.fiber 0), .startOp, .task (.fiber 0),
          .stopOp, .clearOp]) =
      clearFS
        (runActs (⟨fun m => .error m, 1, 0, fun _ _ => 0, true, true,
            false⟩ : Cfg Nat Nat Nat)
          (init (⟨fun m => .error m, 1, 0, fun _ _ => 0, true, true,
            false⟩ : Cfg Nat Nat Nat) [5])
          [.addMsg 6, .task (.fiber 0), .startOp, .task (.fiber 0),
            .stopOp, .clearOp]) :=
  C10_forceStopped_write_only Nat Nat Nat
    ⟨fun m => .error m, 1, 0, fun _ _ => 0, true, true, false⟩
    (init ⟨fun m => .error m, 1, 0, fun _ _ => 0, true, true, false⟩ [5])
    true
    [.addMsg 6, .task (.fiber 0), .startOp, .task (.fiber 0),
      .stopOp, .clearOp]

theorem cea_cons_started [BEq E] (e0 : E) (l : List (Ev M E D)) :
    countErrorAt e0 ((.started : Ev M E D) :: l) = countErrorAt e0 l := by
  simp [countErrorAt, List.countP_cons]

theorem cea_cons_finished [BEq E] (e0 : E) (l : List (Ev M E D)) :
    countErrorAt e0 ((.finished : Ev M E D) :: l) = countErrorAt e0 l := by
  simp [countErrorAt, List.countP_cons]

theorem cea_cons_processed [BEq E] (e0 : E) (d : D)
    (l : List (Ev M E D)) :
    countErrorAt e0 ((.processed d : Ev M E D) :: l) =
      countErrorAt e0 l := by
  simp [countErrorAt, List.countP_cons]

theorem cea_cons_retry [BEq E] (e0 : E) (m : M) (a dl : Nat)
    (l : List (Ev M E D)) :
    countErrorAt e0 ((.retry m a dl : Ev M E D) :: l) =
      countErrorAt e0 l := by
  simp [countErrorAt, List.countP_cons]

theorem cea_cons_dispatched [BEq E] (e0 : E) (j : Nat) (m : M) (a : Nat)
    (l : List (Ev M E D)) :
    countErrorAt e0 ((.dispatched j m a : Ev M E D) :: l) =
      countErrorAt e0 l := by
  simp [countErrorAt, List.countP_cons]

theorem cea_cons_error [BEq E] (e0 e1 : E) (l : List (Ev M E D)) :
    countErrorAt e0 ((.error e1 : Ev M E D) :: l) =
      countErrorAt e0 l + if e1 == e0 then 1 else 0 := by
  simp [countErrorAt, List.countP_cons]

theorem mem_eraseIdx_of_mem_ne {α : Type} {l : List α} {j : Nat}
    {a b : α} (hg : l[j]? = some a) (hb : b ∈ l) (hne : ¬ b = a) :
    b ∈ l.eraseIdx j := by
  rw [List.eraseIdx_eq_take_drop_succ]
  rw [list_split_of_getElem l j a hg] at hb
  simp only [List.mem_append, List.mem_cons] at hb ⊢
  tauto

theorem C2core_transport {s s' : St Nat Nat Nat} {N : Nat}
    (hQ : s'.queue = s.queue) (hI : inflightPkts s' = inflightPkts s)
    (hT : timerPkts s' = timerPkts s) (hL : s'.dlq = s.dlq)
    (hF : s'.fibers = s.fibers) (hW : s'.working = s.working)
    (hEd : ∀ i, countDispatchedId i s'.events =
      countDispatchedId i s.events)
    (hEe : ∀ i, countErrorAt i s'.events = countErrorAt i s.events)
    (h : C2core N s) : C2core N s' := by
  obtain ⟨h1, h2, h3, h4, h5, h6⟩ := h
  refine ⟨by rw [hQ]; exact h1, by rw [hI]; exact h2,
    by rw [hT]; exact h3, by rw [hL]; exact h4, ?_, ?_⟩
  · intro i hi
    have hlc : liveCnt i s' = liveCnt i s := by
      rw [liveCnt, liveCnt, hQ, hI, hT]
    rw [hlc, hEe i, hEd i, hL]
    exact h5 i hi
  · rw [hW, hF]
    exact h6

theorem C2core_addReady {s s' : St Nat Nat Nat} {N : Nat} (w : Nat)
    (hQ : s'.queue = s.queue)
    (hF : s'.fibers = s.fibers ++ [⟨w, FiberPC.ready⟩])
    (hT : s'.timers = s.timers) (hL : s'.dlq = s.dlq)
    (hW : s'.working = s.working)
    (hEd : ∀ i, countDispatchedId i s'.events =
      countDispatchedId i s.events)
    (hEe : ∀ i, countErrorAt i s'.events = countErrorAt i s.events)
    (h : C2core N s) : C2core N s' := by
  have hI : inflightPkts s' = inflightPkts s := by
    rw [inflightPkts, hF, List.filterMap_append]
    simp [inflightPkts, fiberPkt]
  have hTp : timerPkts s' = timerPkts s := by
    rw [timerPkts, hT, timerPkts]
  obtain ⟨h1, h2, h3, h4, h5, h6⟩ := h
  refine ⟨by rw [hQ]; exact h1, by rw [hI]; exact h2,
    by rw [hTp]; exact h3, by rw [hL]; exact h4, ?_, ?_⟩
  · intro i hi
    have hlc : liveCnt i s' = liveCnt i s := by
      rw [liveCnt, liveCnt, hQ, hI, hTp]
    rw [hlc, hEe i, hEd i, hL]
    exact h5 i hi
  · intro w' hw'
    rw [hW] at hw'
    obtain ⟨f, hf, hfa, q, hq⟩ := h6 w' hw'
    exact ⟨f, by rw [hF]; exact List.mem_append_left _ hf, hfa, q, hq⟩

theorem seedPkts_range_aux (n : Nat) :
    ∀ s : Nat, seedPkts (List.range' s n) s =
      (List.range' s n).map (fun k => (⟨k, k, 0⟩ : Pkt Nat)) := by
  induction n with
  | zero => intro s; rfl
  | succ n ih =>
    intro s
    rw [List.range'_succ]
    simp only [seedPkts, List.map_cons]
    rw [ih (s + 1)]

theorem seedPkts_range (N : Nat) :
    seedPkts (List.range N) 0 =
      (List.range N).map (fun k => (⟨k, k, 0⟩ : Pkt Nat)) := by
  rw [List.range_eq_range' N]
  exact seedPkts_range_aux N 0

theorem resolve_err_retry (W : Nat) (dl : Nat → Nat → Nat)
    (s : St Nat Nat Nat) (w : Nat) (p : Pkt Nat) (h : p.attempt < 2) :
    resolve (errCfg W dl) s w p =
      { s with
          events := Ev.retry p.message p.attempt (dl p.attempt p.message)
            :: s.events,
          awaitRetry := s.awaitRetry.set w true,
          timers := s.timers ++ [Timer.retryAppend p w],
          working := s.working.set w false } := by
  simp [resolve, errCfg, h, emitRetry]

theorem resolve_err_dead (W : Nat) (dl : Nat → Nat → Nat)
    (s : St Nat Nat Nat) (w : Nat) (p : Pkt Nat) (h : ¬ p.attempt < 2) :
    resolve (errCfg W dl) s w p =
      { s with
          events := Ev.error p.message :: s.events,
          dlq := s.dlq ++ [⟨s.nextId, p.message, 0⟩],
          nextId := s.nextId + 1,
          working := s.working.set w false } := by
  simp [resolve, errCfg, h, emitError, dlqAdd]

theorem c2core_dispatchS {s s' : St Nat Nat Nat} {N : Nat} (w : Nat)
    (p : Pkt Nat) (rest : List (Pkt Nat)) (hq : s.queue = p :: rest)
    (hQ : s'.queue = rest)
    (hI : inflightPkts s' =
      inflightPkts s ++ [⟨p.id, p.message, p.attempt + 1⟩])
    (hT : timerPkts s' = timerPkts s)
    (hL : s'.dlq = s.dlq)
    (hF : s'.fibers = s.fibers ++
      [⟨w, FiberPC.awaitingProc ⟨p.id, p.message, p.attempt + 1⟩⟩])
    (hW : s'.working = s.working.set w true)
    (hEd : ∀ i, countDispatchedId i s'.events =
      countDispatchedId i s.events + if p.id = i then 1 else 0)
    (hEe : ∀ i, countErrorAt i s'.events = countErrorAt i s.events)
    (hcore : C2core N s) : C2core N s' := by
  obtain ⟨h1, h2, h3, h4, h5, h6⟩ := hcore
  have hpQ : p ∈ s.queue := by
    rw [hq]
    exact List.mem_cons_self p rest
  obtain ⟨hpm, hpN, hpa⟩ := h1 p hpQ
  refine ⟨?_, ?_, ?_, ?_, ?_, ?_⟩
  · intro q hq2
    rw [hQ] at hq2
    exact h1 q (by rw [hq]; exact List.mem_cons_of_mem p hq2)
  · intro q hq2
    rw [hI] at hq2
    rcases List.mem_append.mp hq2 with h | h
    · exact h2 q h
    · have hqe : q = ⟨p.id, p.message, p.attempt + 1⟩ :=
        List.mem_singleton.mp h
      subst hqe
      refine ⟨hpm, hpN, ?_⟩
      show p.attempt + 1 ≤ 2
      omega
  · intro q hq2
    rw [hT] at hq2
    exact h3 q hq2
  · intro q hq2
    rw [hL] at hq2
    exact h4 q hq2
  · intro i hi
    have hlc : liveCnt i s' = liveCnt i s := by
      rw [liveCnt, liveCnt, hQ, hI, hT, hq]
      cases hb : p.id == i <;>
        simp [List.countP_append, List.countP_cons, hb] <;> omega
    rcases h5 i hi with ⟨hl1, he0, hm0⟩ | ⟨hl0, hd2, he1, hm1⟩
    · exact Or.inl ⟨hlc.trans hl1, (hEe i).trans he0,
        by rw [hL]; exact hm0⟩
    · have hne : ¬ p.id = i := by
        intro hcontra
        have hpos : 0 < liveCnt i s := by
          rw [liveCnt]
          refine List.countP_pos_iff.mpr ⟨p, ?_, ?_⟩
          · rw [hq]
            simp
          · simp [hcontra]
        omega
      refine Or.inr ⟨hlc.trans hl0, ?_, (hEe i).trans he1,
        by rw [hL]; exact hm1⟩
      rw [hEd i, if_neg hne]
      omega
  · intro w' hw'
    rw [hW] at hw'
    by_cases hww : w' = w
    · subst hww
      refine ⟨⟨w', FiberPC.awaitingProc ⟨p.id, p.message, p.attempt + 1⟩⟩,
        ?_, rfl, ⟨p.id, p.message, p.attempt + 1⟩, rfl⟩
      rw [hF]
      exact List.mem_append_right _ (List.mem_singleton.mpr rfl)
    · have hold : s.working.getD w' false = true := by
        rw [List.getD_eq_getElem?_getD] at hw' ⊢
        rw [List.getElem?_set_ne (fun hh => hww hh.symm)] at hw'
        exact hw'
      obtain ⟨f, hf, hfw, q, hqc⟩ := h6 w' hold
      exact ⟨f, by rw [hF]; exact List.mem_append_left _ hf, hfw, q, hqc⟩

theorem c2core_spawnFiber (N : Nat) (s : St Nat Nat Nat) (w : Nat)
    (hcore : C2core N s) : C2core N (spawnFiber s w) := by
  rcases Bool.eq_false_or_eq_true (s.isProcessing || anyAwaitingRetry s)
    with hc | hc
  case inr =>
    rw [spawnFiber_dead s w hc]
    exact hcore
  case inl =>
    obtain hq | ⟨p, rest, hq⟩ :
        s.queue = [] ∨ ∃ p rest, s.queue = p :: rest := by
      cases s.queue
      · exact Or.inl rfl
      · exact Or.inr ⟨_, _, rfl⟩
    · rw [spawnFiber_empty s w hq hc]
      rcases Bool.eq_false_or_eq_true
          (s.isProcessing && !anyAwaitingRetry s) with hf | hf
      case inl =>
        rw [if_pos hf]
        exact C2core_addReady (s := s) w rfl rfl rfl rfl rfl
          (fun i => cdi_cons_finished i s.events)
          (fun i => cea_cons_finished i s.events) hcore
      case inr =>
        rw [if_neg (by simp [hf])]
        exact C2core_addReady (s := s) w rfl rfl rfl rfl rfl (fun i => rfl)
          (fun i => rfl) hcore
    · rw [spawnFiber_dispatch s w p rest hq hc]
      exact c2core_dispatchS w p rest hq rfl
        (by simp [inflightPkts, fiberPkt]) rfl rfl rfl rfl
        (fun i => cdi_cons_dispatched i p.id p.message (p.attempt + 1)
          s.events)
        (fun i => cea_cons_dispatched i p.id p.message (p.attempt + 1)
          s.events) hcore

theorem c2core_spawnLoop_run (N : Nat) (ws : List Nat)
    (s : St Nat Nat Nat) (h : C2core N s ∧ s.isProcessing = true) :
    C2core N (spawnLoop ws s) ∧ (spawnLoop ws s).isProcessing = true := by
  refine spawnLoop_preserve
    (fun s => C2core N s ∧ s.isProcessing = true) ?_ ws s h
  intro s w hqne hP
  obtain ⟨hcore, hip⟩ := hP
  obtain ⟨p, rest, hq⟩ : ∃ p rest, s.queue = p :: rest := by
    cases hqq : s.queue
    · exact absurd hqq hqne
    · exact ⟨_, _, rfl⟩
  have hc : (s.isProcessing || anyAwaitingRetry s) = true := by
    simp [hip]
  constructor
  · exact c2core_spawnFiber N s w hcore
  · rw [spawnFiber_dispatch s w p rest hq hc]
    exact hip

theorem spawnLoop_start_fibers (N : Nat) (s : St Nat Nat Nat)
    (ws : List Nat) (hip : s.isProcessing = true) (hqne : s.queue ≠ [])
    (hcore : C2core N s) : (spawnLoop (0 :: ws) s).fibers ≠ [] := by
  obtain ⟨p, rest, hq⟩ : ∃ p rest, s.queue = p :: rest := by
    cases hqq : s.queue
    · exact absurd hqq hqne
    · exact ⟨_, _, rfl⟩
  rw [spawnLoop]
  rw [if_neg (by simp [hq])]
  by_cases hw0 : s.working.getD 0 false = true
  · rw [if_pos hw0]
    obtain ⟨f, hf, _, _, _⟩ := hcore.2.2.2.2.2 0 hw0
    obtain ⟨l, hl⟩ := spawnLoop_fibers ws s
    rw [hl]
    intro hcontra
    rw [List.append_eq_nil] at hcontra
    rw [hcontra.1] at hf
    simp at hf
  · rw [if_neg hw0]
    have hc : (s.isProcessing || anyAwaitingRetry s) = true := by
      simp [hip]
    obtain ⟨l, hl⟩ := spawnLoop_fibers ws (spawnFiber s 0)
    rw [hl, spawnFiber_dispatch s 0 p rest hq hc]
    simp

theorem c2_startProcessing (W : Nat) (dl : Nat → Nat → Nat) (N : Nat)
    (hW : 1 ≤ W) (s : St Nat Nat Nat) (hld : ledger s)
    (hcore : C2core N s) (hf3 : s.isProcessing = true → s.fibers ≠ []) :
    C2inv N (startProcessing (errCfg W dl) s) := by
  rcases Bool.eq_false_or_eq_true (s.isProcessing && !anyAwaitingRetry s)
    with hc | hc
  case inl =>
    rw [startProcessing, if_pos hc]
    have hip : s.isProcessing = true := by
      rcases Bool.eq_false_or_eq_true s.isProcessing with hip | hip
      · exact hip
      · rw [hip] at hc
        simp at hc
    refine ⟨hld, hcore, fun _ => hf3 hip, ?_⟩
    intro hfalse
    rw [hip] at hfalse
    exact absurd hfalse (by simp)
  case inr =>
    rw [startProcessing, if_neg (by simp [hc])]
    show C2inv N (if !hasMessages (emitStarted s) then
      emitFinished (emitStarted s)
      else spawnLoop (List.range (errCfg W dl).workers)
        { emitStarted s with forceStopped := false, isProcessing := true })
    obtain hq | ⟨p, rest, hq⟩ :
        s.queue = [] ∨ ∃ p rest, s.queue = p :: rest := by
      cases s.queue
      · exact Or.inl rfl
      · exact Or.inr ⟨_, _, rfl⟩
    · rw [if_pos (by simp [hasMessages, emitStarted, hq])]
      refine ⟨?_, ?_, ?_, ?_⟩
      · exact ledger_transport (s := s) rfl rfl rfl rfl rfl
          (fun i => (cdi_cons_finished i (Ev.started :: s.events)).trans
            (cdi_cons_started i s.events)) hld
      · exact C2core_transport rfl rfl rfl rfl rfl rfl
          (fun i => (cdi_cons_finished i (Ev.started :: s.events)).trans
            (cdi_cons_started i s.events))
          (fun i => (cea_cons_finished i (Ev.started :: s.events)).trans
            (cea_cons_started i s.events)) hcore
      · intro hx
        exact absurd hx (by simp [emitFinished])
      · intro _
        exact Or.inl hq
    · rw [if_neg (by simp [hasMessages, emitStarted, hq])]
      have hcore1 : C2core N
          ({ emitStarted s with
              forceStopped := false, isProcessing := true } :
            St Nat Nat Nat) :=
        C2core_transport rfl rfl rfl rfl rfl rfl
          (fun i => cdi_cons_started i s.events)
          (fun i => cea_cons_started i s.events) hcore
      have hip1 : ({ emitStarted s with
          forceStopped := false, isProcessing := true } :
            St Nat Nat Nat).isProcessing = true := rfl
      have hq1 : ({ emitStarted s with
          forceStopped := false, isProcessing := true } :
            St Nat Nat Nat).queue ≠ [] := by
        show s.queue ≠ []
        rw [hq]
        simp
      obtain ⟨ws, hws⟩ : ∃ ws, List.range W = 0 :: ws := by
        cases W with
        | zero => omega
        | succ k => exact ⟨_, List.range_succ_eq_map k⟩
      rw [show (errCfg W dl).workers = W from rfl, hws]
      obtain ⟨hcore2, hip2⟩ := c2core_spawnLoop_run N (0 :: ws) _
        ⟨hcore1, hip1⟩
      have hfib2 := spawnLoop_start_fibers N _ ws hip1 hq1 hcore1
      refine ⟨?_, hcore2, fun _ => hfib2, ?_⟩
      · exact ledger_spawnLoop _ _
          (ledger_transport (s := s) rfl rfl rfl rfl rfl
            (fun i => cdi_cons_started i s.events) hld)
      · intro hfalse
        rw [hip2] at hfalse
        exact absurd hfalse (by simp)

theorem getD_set_false (l : List Bool) (w : Nat) :
    (l.set w false).getD w false = false := by
  rw [List.getD_eq_getElem?_getD]
  by_cases h : w < l.length
  · rw [List.getElem?_set_self (by simpa using h)]
    rfl
  · rw [List.getElem?_eq_none (by simp; omega)]
    rfl

theorem invW_resolve (s : St Nat Nat Nat) (j w : Nat) (p : Pkt Nat)
    (hg : s.fibers[j]? = some ⟨w, FiberPC.awaitingProc p⟩)
    (h6 : ∀ w', s.working.getD w' false = true →
      ∃ f ∈ s.fibers, f.worker = w' ∧ ∃ q, f.pc = FiberPC.awaitingProc q) :
    ∀ w', (s.working.set w false).getD w' false = true →
      ∃ f ∈ s.fibers.eraseIdx j ++ [⟨w, FiberPC.ready⟩],
        f.worker = w' ∧ ∃ q, f.pc = FiberPC.awaitingProc q := by
  intro w' hw'
  by_cases hww : w' = w
  · subst hww
    rw [getD_set_false] at hw'
    exact absurd hw' (by simp)
  · have hold : s.working.getD w' false = true := by
      rw [List.getD_eq_getElem?_getD] at hw' ⊢
      rw [List.getElem?_set_ne (fun hh => hww hh.symm)] at hw'
      exact hw'
    obtain ⟨f, hf, hfw, q, hqc⟩ := h6 w' hold
    refine ⟨f, List.mem_append_left _ ?_, hfw, q, hqc⟩
    refine mem_eraseIdx_of_mem_ne hg hf ?_
    intro hfe
    rw [hfe] at hfw
    exact hww hfw.symm

theorem c2core_eraseReady (N : Nat) (s : St Nat Nat Nat) (j w : Nat)
    (hg : s.fibers[j]? = some ⟨w, FiberPC.ready⟩) (hcore : C2core N s) :
    C2core N { s with fibers := s.fibers.eraseIdx j } := by
  obtain ⟨h1, h2, h3, h4, h5, h6⟩ := hcore
  have hI : inflightPkts ({ s with fibers := s.fibers.eraseIdx j } :
      St Nat Nat Nat) = inflightPkts s :=
    (filterMap_split_none fiberPkt s.fibers j ⟨w, FiberPC.ready⟩
      hg rfl).symm
  refine ⟨h1, by rw [hI]; exact h2, h3, h4, ?_, ?_⟩
  · intro i hi
    have hlc : liveCnt i ({ s with fibers := s.fibers.eraseIdx j } :
        St Nat Nat Nat) = liveCnt i s := by
      rw [liveCnt, liveCnt, hI]
      rfl
    rw [hlc]
    exact h5 i hi
  · intro w' hw'
    obtain ⟨f, hf, hfw, q, hqc⟩ := h6 w' hw'
    refine ⟨f, ?_, hfw, q, hqc⟩
    show f ∈ s.fibers.eraseIdx j
    refine mem_eraseIdx_of_mem_ne hg hf ?_
    intro hfe
    rw [hfe] at hqc
    simp at hqc

theorem c2_spawnFiber_inv (N : Nat) (s0 : St Nat Nat Nat) (w : Nat)
    (hld0 : ledger s0) (hcore0 : C2core N s0)
    (hqp0 : s0.isProcessing = false → s0.queue = [] ∨ s0.timers ≠ []) :
    C2inv N (spawnFiber s0 w) := by
  have hipOf : (s0.isProcessing || anyAwaitingRetry s0) = false →
      s0.isProcessing = false := by
    intro hcc
    rcases Bool.eq_false_or_eq_true s0.isProcessing with htr | hfa
    · rw [htr] at hcc
      simp at hcc
    · exact hfa
  refine ⟨ledger_spawnFiber s0 w hld0, c2core_spawnFiber N s0 w hcore0,
    ?_, ?_⟩
  · rcases Bool.eq_false_or_eq_true
        (s0.isProcessing || anyAwaitingRetry s0) with hc | hc
    case inr =>
      rw [spawnFiber_dead s0 w hc]
      intro hx
      rw [hipOf hc] at hx
      exact absurd hx (by simp)
    case inl =>
      obtain hq | ⟨p, rest, hq⟩ :
          s0.queue = [] ∨ ∃ p rest, s0.queue = p :: rest := by
        cases s0.queue
        · exact Or.inl rfl
        · exact Or.inr ⟨_, _, rfl⟩
      · rw [spawnFiber_empty s0 w hq hc]
        intro _
        simp
      · rw [spawnFiber_dispatch s0 w p rest hq hc]
        intro _
        simp
  · rcases Bool.eq_false_or_eq_true
        (s0.isProcessing || anyAwaitingRetry s0) with hc | hc
    case inr =>
      rw [spawnFiber_dead s0 w hc]
      exact hqp0
    case inl =>
      obtain hq | ⟨p, rest, hq⟩ :
          s0.queue = [] ∨ ∃ p rest, s0.queue = p :: rest := by
        cases s0.queue
        · exact Or.inl rfl
        · exact Or.inr ⟨_, _, rfl⟩
      · rw [spawnFiber_empty s0 w hq hc]
        intro _
        left
        rcases Bool.eq_false_or_eq_true
            (s0.isProcessing && !anyAwaitingRetry s0) with hf | hf
        · rw [if_pos hf]
          exact hq
        · rw [if_neg (by simp [hf])]
          exact hq
      · rw [spawnFiber_dispatch s0 w p rest hq hc]
        intro hx
        rcases hqp0 hx with hq0 | ht0
        · rw [hq] at hq0
          simp at hq0
        · exact Or.inr ht0

theorem c2core_retryS {s s' : St Nat Nat Nat} {N : Nat}
    (p : Pkt Nat) (iT iD : List (Pkt Nat))
    (hio : inflightPkts s = iT ++ p :: iD)
    (hpa : p.attempt = 1)
    (hQ : s'.queue = s.queue)
    (hI : inflightPkts s' = iT ++ iD)
    (hT : timerPkts s' = timerPkts s ++ [p])
    (hL : s'.dlq = s.dlq)
    (hW6 : ∀ w', s'.working.getD w' false = true →
      ∃ f ∈ s'.fibers, f.worker = w' ∧ ∃ q, f.pc = FiberPC.awaitingProc q)
    (hEd : ∀ i, countDispatchedId i s'.events =
      countDispatchedId i s.events)
    (hEe : ∀ i, countErrorAt i s'.events = countErrorAt i s.events)
    (hcore : C2core N s) : C2core N s' := by
  obtain ⟨h1, h2, h3, h4, h5, h6⟩ := hcore
  have hpI : p ∈ inflightPkts s := by
    rw [hio]
    simp
  obtain ⟨hpm, hpN, _⟩ := h2 p hpI
  refine ⟨?_, ?_, ?_, ?_, ?_, hW6⟩
  · intro q hq2
    rw [hQ] at hq2
    exact h1 q hq2
  · intro q hq2
    rw [hI] at hq2
    refine h2 q ?_
    rw [hio]
    simp only [List.mem_append, List.mem_cons] at hq2 ⊢
    tauto
  · intro q hq2
    rw [hT] at hq2
    rcases List.mem_append.mp hq2 with h | h
    · exact h3 q h
    · have hqe : q = p := List.mem_singleton.mp h
      subst hqe
      exact ⟨hpm, hpN, hpa⟩
  · intro q hq2
    rw [hL] at hq2
    exact h4 q hq2
  · intro i hi
    have hlc : liveCnt i s' = liveCnt i s := by
      rw [liveCnt, liveCnt, hQ, hI, hT, hio]
      cases hb : p.id == i <;>
        simp [List.countP_append, List.countP_cons, hb] <;> omega
    rcases h5 i hi with ⟨hl1, he0, hm0⟩ | ⟨hl0, hd2, he1, hm1⟩
    · exact Or.inl ⟨hlc.trans hl1, (hEe i).trans he0,
        by rw [hL]; exact hm0⟩
    · exact Or.inr ⟨hlc.trans hl0, (hEd i).trans hd2,
        (hEe i).trans he1, by rw [hL]; exact hm1⟩

theorem c2core_deadS {s s' : St Nat Nat Nat} {N : Nat}
    (p : Pkt Nat) (iT iD : List (Pkt Nat))
    (hio : inflightPkts s = iT ++ p :: iD)
    (hpd : countDispatchedId p.id s.events = 2)
    (hQ : s'.queue = s.queue)
    (hI : inflightPkts s' = iT ++ iD)
    (hT : timerPkts s' = timerPkts s)
    (hL : s'.dlq = s.dlq ++ [⟨s.nextId, p.message, 0⟩])
    (hW6 : ∀ w', s'.working.getD w' false = true →
      ∃ f ∈ s'.fibers, f.worker = w' ∧ ∃ q, f.pc = FiberPC.awaitingProc q)
    (hEd : ∀ i, countDispatchedId i s'.events =
      countDispatchedId i s.events)
    (hEe : ∀ i, countErrorAt i s'.events =
      countErrorAt i s.events + if p.message == i then 1 else 0)
    (hcore : C2core N s) : C2core N s' := by
  obtain ⟨h1, h2, h3, h4, h5, h6⟩ := hcore
  have hpI : p ∈ inflightPkts s := by
    rw [hio]
    simp
  obtain ⟨hpm, hpN, _⟩ := h2 p hpI
  refine ⟨?_, ?_, ?_, ?_, ?_, hW6⟩
  · intro q hq2
    rw [hQ] at hq2
    exact h1 q hq2
  · intro q hq2
    rw [hI] at hq2
    refine h2 q ?_
    rw [hio]
    simp only [List.mem_append, List.mem_cons] at hq2 ⊢
    tauto
  · intro q hq2
    rw [hT] at hq2
    exact h3 q hq2
  · intro q hq2
    rw [hL] at hq2
    rcases List.mem_append.mp hq2 with h | h
    · exact h4 q h
    · have hqe : q = ⟨s.nextId, p.message, 0⟩ := List.mem_singleton.mp h
      subst hqe
      refine ⟨rfl, ?_⟩
      show p.message < N
      rw [hpm]
      exact hpN
  · intro i hi
    have hlc : liveCnt i s' + (if p.id == i then 1 else 0) =
        liveCnt i s := by
      rw [liveCnt, liveCnt, hQ, hI, hT, hio]
      cases hb : p.id == i <;>
        simp [List.countP_append, List.countP_cons, hb] <;> omega
    rcases h5 i hi with ⟨hl1, he0, hm0⟩ | ⟨hl0, hd2, he1, hm1⟩
    · by_cases hpi : p.id = i
      · refine Or.inr ⟨?_, ?_, ?_, ?_⟩
        · have hb : (p.id == i) = true := by
            simp [hpi]
          simp [hb] at hlc
          omega
        · rw [hEd i, ← hpi]
          exact hpd
        · rw [hEe i, he0]
          have hb : (p.message == i) = true := by
            rw [hpm]
            simp [hpi]
          rw [hb]
          rfl
        · rw [hL, cntMsg, List.countP_append]
          have hb : (p.message == i) = true := by
            rw [hpm]
            simp [hpi]
          rw [cntMsg] at hm0
          rw [hm0]
          simp [hb]
      · refine Or.inl ⟨?_, ?_, ?_⟩
        · have hb : (p.id == i) = false := by
            simp [hpi]
          simp [hb] at hlc
          omega
        · rw [hEe i, he0]
          have hb : (p.message == i) = false := by
            rw [hpm]
            simp [hpi]
          rw [hb]
          rfl
        · rw [hL, cntMsg, List.countP_append]
          have hb : (p.message == i) = false := by
            rw [hpm]
            simp [hpi]
          rw [cntMsg] at hm0
          rw [hm0]
          simp [hb]
    · have hne : ¬ p.id = i := by
        intro hcontra
        have hpos : 0 < liveCnt i s := by
          rw [liveCnt]
          refine List.countP_pos_iff.mpr ⟨p, ?_, ?_⟩
          · simp only [List.mem_append]
            exact Or.inl (Or.inr hpI)
          · simp [hcontra]
        omega
      have hb : (p.id == i) = false := by
        simp [hne]
      have hbm : (p.message == i) = false := by
        rw [hpm]
        simp [hne]
      refine Or.inr ⟨?_, (hEd i).trans hd2, ?_, ?_⟩
      · simp [hb] at hlc
        omega
      · rw [hEe i, he1, hbm]
        rfl
      · rw [hL, cntMsg, List.countP_append]
        rw [cntMsg] at hm1
        rw [hm1]
        simp [hbm]

theorem c2core_timerMoveS {s s' : St Nat Nat Nat} {N : Nat}
    (p : Pkt Nat) (tT tD : List (Pkt Nat))
    (hio : timerPkts s = tT ++ p :: tD)
    (hQ : s'.queue = s.queue ++ [p])
    (hI : inflightPkts s' = inflightPkts s)
    (hT : timerPkts s' = tT ++ tD)
    (hL : s'.dlq = s.dlq)
    (hF : s'.fibers = s.fibers)
    (hW : s'.working = s.working)
    (hEd : ∀ i, countDispatchedId i s'.events =
      countDispatchedId i s.events)
    (hEe : ∀ i, countErrorAt i s'.events = countErrorAt i s.events)
    (hcore : C2core N s) : C2core N s' := by
  obtain ⟨h1, h2, h3, h4, h5, h6⟩ := hcore
  have hpT : p ∈ timerPkts s := by
    rw [hio]
    simp
  obtain ⟨hpm, hpN, hpa⟩ := h3 p hpT
  refine ⟨?_, ?_, ?_, ?_, ?_, ?_⟩
  · intro q hq2
    rw [hQ] at hq2
    rcases List.mem_append.mp hq2 with h | h
    · exact h1 q h
    · have hqe : q = p := List.mem_singleton.mp h
      subst hqe
      exact ⟨hpm, hpN, by omega⟩
  · intro q hq2
    rw [hI] at hq2
    exact h2 q hq2
  · intro q hq2
    rw [hT] at hq2
    refine h3 q ?_
    rw [hio]
    simp only [List.mem_append, List.mem_cons] at hq2 ⊢
    tauto
  · intro q hq2
    rw [hL] at hq2
    exact h4 q hq2
  · intro i hi
    have hlc : liveCnt i s' = liveCnt i s := by
      rw [liveCnt, liveCnt, hQ, hI, hT, hio]
      cases hb : p.id == i <;>
        simp [List.countP_append, List.countP_cons, hb] <;> omega
    rcases h5 i hi with ⟨hl1, he0, hm0⟩ | ⟨hl0, hd2, he1, hm1⟩
    · exact Or.inl ⟨hlc.trans hl1, (hEe i).trans he0,
        by rw [hL]; exact hm0⟩
    · exact Or.inr ⟨hlc.trans hl0, (hEd i).trans hd2,
        (hEe i).trans he1, by rw [hL]; exact hm1⟩
  · intro w' hw'
    rw [hW] at hw'
    obtain ⟨f, hf, hfw, q, hqc⟩ := h6 w' hw'
    exact ⟨f, by rw [hF]; exact hf, hfw, q, hqc⟩

theorem c2_step (W : Nat) (dl : Nat → Nat → Nat) (N : Nat) (hW : 1 ≤ W)
    (s : St Nat Nat Nat) (t : Task) (hinv : C2inv N s) :
    C2inv N (step (errCfg W dl) s t) := by
  obtain ⟨hld, hcore, hf3, hqp⟩ := hinv
  cases t with
  | fiber j =>
    show C2inv N (runFiberTask (errCfg W dl) s j)
    cases hg : s.fibers[j]? with
    | none =>
      rw [runFiberTask_get_none (errCfg W dl) s j hg]
      exact ⟨hld, hcore, hf3, hqp⟩
    | some f =>
      obtain ⟨w, pc⟩ := f
      cases pc with
      | ready =>
        rw [runFiberTask_get_ready (errCfg W dl) s j w hg]
        have hI0 : inflightPkts ({ s with fibers := s.fibers.eraseIdx j } :
            St Nat Nat Nat) = inflightPkts s :=
          (filterMap_split_none fiberPkt s.fibers j ⟨w, FiberPC.ready⟩
            hg rfl).symm
        have hld0 : ledger ({ s with fibers := s.fibers.eraseIdx j } :
            St Nat Nat Nat) :=
          ledger_transport (s := s) rfl hI0 rfl rfl rfl (fun i => rfl) hld
        have hcore0 := c2core_eraseReady N s j w hg hcore
        exact c2_spawnFiber_inv N _ w hld0 hcore0 hqp
      | awaitingProc p =>
        have hldR := ledger_runFiberTask (errCfg W dl) s j hld
        show C2inv N (runFiberTask (errCfg W dl) s j)
        rw [runFiberTask_get_await (errCfg W dl) s j w p hg] at hldR ⊢
        have hio : inflightPkts s =
            (s.fibers.take j).filterMap fiberPkt ++ p ::
              (s.fibers.drop (j + 1)).filterMap fiberPkt :=
          filterMap_split_some fiberPkt s.fibers j
            ⟨w, FiberPC.awaitingProc p⟩ p hg rfl
        have hpI : p ∈ inflightPkts s := by
          rw [hio]
          simp
        obtain ⟨hpm, hpN, hpA2⟩ := hcore.2.1 p hpI
        have hatt : p.attempt = countDispatchedId p.id s.events :=
          hld.1 p (by
            simp only [List.mem_append]
            exact Or.inl (Or.inl (Or.inr hpI)))
        have hge1 : 1 ≤ p.attempt := hld.2.2.2.2 p hpI
        rcases Nat.lt_or_ge p.attempt 2 with hlt | hge
        · have hpa1 : p.attempt = 1 := by omega
          rw [resolve_err_retry W dl
            { s with fibers := s.fibers.eraseIdx j } w p hlt] at hldR ⊢
          refine ⟨hldR, ?_, ?_, ?_⟩
          · refine c2core_retryS (s := s) p _ _ hio hpa1 rfl ?_ ?_ rfl
              (invW_resolve s j w p hg hcore.2.2.2.2.2)
              (fun i => cdi_cons_retry i p.message p.attempt
                (dl p.attempt p.message) s.events)
              (fun i => cea_cons_retry i p.message p.attempt
                (dl p.attempt p.message) s.events) hcore
            · show (s.fibers.eraseIdx j ++
                  [(⟨w, FiberPC.ready⟩ : Fiber Nat)]).filterMap fiberPkt
                = _
              rw [List.filterMap_append, filterMap_eraseIdx_split]
              simp [fiberPkt]
            · show (s.timers ++ [Timer.retryAppend p w]).filterMap
                timerPkt = _
              rw [List.filterMap_append]
              simp [timerPkts, timerPkt]
          · intro _
            simp
          · intro _
            right
            simp
        · have hpd : countDispatchedId p.id s.events = 2 := by
            rw [← hatt]
            omega
          rw [resolve_err_dead W dl
            { s with fibers := s.fibers.eraseIdx j } w p (by omega)]
            at hldR ⊢
          refine ⟨hldR, ?_, ?_, ?_⟩
          · refine c2core_deadS (s := s) p _ _ hio hpd rfl ?_ rfl rfl
              (invW_resolve s j w p hg hcore.2.2.2.2.2)
              (fun i => cdi_cons_error i p.message s.events)
              (fun i => cea_cons_error i p.message s.events) hcore
            show (s.fibers.eraseIdx j ++
                [(⟨w, FiberPC.ready⟩ : Fiber Nat)]).filterMap fiberPkt
              = _
            rw [List.filterMap_append, filterMap_eraseIdx_split]
            simp [fiberPkt]
          · intro _
            simp
          · intro hx
            rcases hqp hx with hq0 | ht0
            · exact Or.inl hq0
            · exact Or.inr ht0
  | timer j =>
    show C2inv N (runTimerTask (errCfg W dl) s j)
    cases hg : s.timers[j]? with
    | none =>
      rw [runTimerTask_get_none (errCfg W dl) s j hg]
      exact ⟨hld, hcore, hf3, hqp⟩
    | some t =>
      cases t with
      | retryAppend p w =>
        have hldR := ledger_runTimerTask (errCfg W dl) s j hld
        rw [runTimerTask_get_some (errCfg W dl) s j
          (Timer.retryAppend p w) hg] at hldR ⊢
        have hioT : timerPkts s =
            (s.timers.take j).filterMap timerPkt ++ p ::
              (s.timers.drop (j + 1)).filterMap timerPkt :=
          filterMap_split_some timerPkt s.timers j
            (Timer.retryAppend p w) p hg rfl
        refine ⟨hldR, ?_, fun hx => hf3 hx, ?_⟩
        · refine c2core_timerMoveS (s := s) p _ _ hioT rfl rfl ?_ rfl
            rfl rfl (fun i => rfl) (fun i => rfl) hcore
          show (s.timers.eraseIdx j ++
              [Timer.retryResume w]).filterMap timerPkt = _
          rw [List.filterMap_append, filterMap_eraseIdx_split]
          simp [timerPkt]
        · intro _
          right
          show s.timers.eraseIdx j ++ [Timer.retryResume w] ≠ []
          simp
      | retryResume w =>
        have hT0 : timerPkts ({ s with timers := s.timers.eraseIdx j } :
            St Nat Nat Nat) = timerPkts s :=
          (filterMap_split_none timerPkt s.timers j (Timer.retryResume w)
            hg rfl).symm
        have hld0 : ledger ({ s with timers := s.timers.eraseIdx j } :
            St Nat Nat Nat) :=
          ledger_transport (s := s) rfl rfl hT0 rfl rfl (fun i => rfl) hld
        have hcore0 : C2core N
            { s with timers := s.timers.eraseIdx j } :=
          C2core_transport (s := s) rfl rfl hT0 rfl rfl rfl
            (fun i => rfl) (fun i => rfl) hcore
        have hf30 : ({ s with timers := s.timers.eraseIdx j } :
            St Nat Nat Nat).isProcessing = true →
            ({ s with timers := s.timers.eraseIdx j } :
              St Nat Nat Nat).fibers ≠ [] := hf3
        obtain ⟨hld1, hcore1, hf31, hqp1⟩ :=
          c2_startProcessing W dl N hW _ hld0 hcore0 hf30
        rw [runTimerTask_get_some (errCfg W dl) s j
          (Timer.retryResume w) hg]
        exact ⟨ledger_transport
            (s := startProcessing (errCfg W dl)
              { s with timers := s.timers.eraseIdx j })
            rfl rfl rfl rfl rfl (fun i => rfl) hld1,
          C2core_transport
            (s := startProcessing (errCfg W dl)
              { s with timers := s.timers.eraseIdx j })
            rfl rfl rfl rfl rfl rfl (fun i => rfl) (fun i => rfl) hcore1,
          fun hx => hf31 hx, fun hx => hqp1 hx⟩

theorem getD_replicate_false (W w : Nat) :
    (List.replicate W false).getD w false = false := by
  rw [List.getD_eq_getElem?_getD]
  by_cases h : w < W
  · rw [List.getElem?_replicate_of_lt h]
    rfl
  · rw [List.getElem?_eq_none (by simpa using h)]
    rfl

theorem ledger_base (cfg : Cfg M E D) (msgs : List M) :
    ledger
      ({ queue := seedPkts msgs 0
         isProcessing := false
         forceStopped := false
         working := List.replicate cfg.workers false
         awaitRetry := List.replicate cfg.workers false
         fibers := []
         timers := []
         events := []
         dlq := []
         nextId := msgs.length } : St M E D) := by
  rw [ledger_def]
  show ledgerC (seedPkts msgs 0) [] [] [] ([] : List (Ev M E D))
    msgs.length
  refine ⟨?_, ?_, ?_, ?_, ?_⟩
  · intro p hp
    simp only [List.append_nil] at hp
    obtain ⟨h1, _, _⟩ := seedPkts_mem msgs 0 p hp
    rw [h1]
    rfl
  · intro p hp
    simp only [List.append_nil] at hp
    obtain ⟨_, _, h3⟩ := seedPkts_mem msgs 0 p hp
    omega
  · intro i
    simp only [List.append_nil]
    exact seedPkts_countP msgs 0 i
  · intro i _
    rfl
  · intro p hp
    simp at hp

theorem C2core_base (W N : Nat) :
    C2core N
      ({ queue := seedPkts (List.range N) 0
         isProcessing := false
         forceStopped := false
         working := List.replicate W false
         awaitRetry := List.replicate W false
         fibers := []
         timers := []
         events := []
         dlq := []
         nextId := (List.range N).length } : St Nat Nat Nat) := by
  refine ⟨?_, ?_, ?_, ?_, ?_, ?_⟩
  · intro p hp
    have hp2 : p ∈ (List.range N).map (fun k => (⟨k, k, 0⟩ : Pkt Nat)) :=
      by
        rw [← seedPkts_range]
        exact hp
    obtain ⟨k, hk, hke⟩ := List.mem_map.mp hp2
    subst hke
    exact ⟨rfl, List.mem_range.mp hk, Nat.zero_le 1⟩
  · intro p hp
    simp [inflightPkts] at hp
  · intro p hp
    simp [timerPkts] at hp
  · intro p hp
    simp at hp
  · intro i hi
    refine Or.inl ⟨?_, rfl, rfl⟩
    rw [liveCnt]
    show (seedPkts (List.range N) 0 ++ ([] : List (Pkt Nat)) ++
        ([] : List (Pkt Nat))).countP (fun p => p.id == i) = 1
    rw [seedPkts_range]
    simp only [List.append_nil]
    rw [List.countP_map]
    show (List.range N).count i = 1
    exact List.count_eq_one_of_mem (List.nodup_range N)
      (List.mem_range.mpr hi)
  · intro w hw
    have hw2 : (List.replicate W false).getD w false = true := hw
    rw [getD_replicate_false] at hw2
    exact absurd hw2 (by simp)

theorem c2_runTasks (W : Nat) (dl : Nat → Nat → Nat) (N : Nat)
    (hW : 1 ≤ W) (s : St Nat Nat Nat) (sched : List Task)
    (hinv : C2inv N s) :
    C2inv N (runTasks (errCfg W dl) s sched) := by
  induction sched generalizing s with
  | nil => exact hinv
  | cons t rest ih => exact ih _ (c2_step W dl N hW s t hinv)

theorem c2_init (W : Nat) (dl : Nat → Nat → Nat) (N : Nat) (hW : 1 ≤ W) :
    C2inv N (init (errCfg W dl) (List.range N)) := by
  have hgen : ∀ s0 : St Nat Nat Nat, ledger s0 → C2core N s0 →
      (s0.isProcessing = true → s0.fibers ≠ []) →
      C2inv N (if (errCfg W dl).autoStart && hasMessages s0 then
        startProcessing (errCfg W dl) s0 else s0) := by
    intro s0 h0 hc0 h30
    rcases Bool.eq_false_or_eq_true (hasMessages s0) with hm | hm
    · rw [if_pos (by simp [errCfg, hm])]
      exact c2_startProcessing W dl N hW s0 h0 hc0 h30
    · rw [if_neg (by simp [errCfg, hm])]
      have hq0 : s0.queue = [] := by
        simpa [hasMessages, List.isEmpty_iff] using hm
      exact ⟨h0, hc0, h30, fun _ => Or.inl hq0⟩
  exact hgen _ (ledger_base (errCfg W dl) (List.range N)) (C2core_base W N)
    (by intro hx; exact absurd hx (by simp))

/-- **C2**: with `redriveCount = 2`, a dead-letter queue configured and a
processor that fails on every invocation (each of the `N` distinct items
is modelled as its payload `0, …, N-1`, and the processor throws the
payload itself), every run from construction to quiescence — any worker
count `W ≥ 1` and any schedule — dispatches each item to the processor
exactly 2 times, publishes `error` for it exactly once, and forwards the
original payload to the dead-letter engine exactly once, where every
entry sits with its attempt counter restarted at 0. -/
theorem C2_retry_deadletter (W : Nat) (dl : Nat → Nat → Nat) (N : Nat)
    (sched : List Task) (hW : 1 ≤ W)
    (hq : quiescent (runTasks (errCfg W dl)
      (init (errCfg W dl) (List.range N)) sched)) :
    ∀ i, i < N →
      countDispatchedId i (runTasks (errCfg W dl)
        (init (errCfg W dl) (List.range N)) sched).events = 2 ∧
      countErrorAt i (runTasks (errCfg W dl)
        (init (errCfg W dl) (List.range N)) sched).events = 1 ∧
      cntMsg i (runTasks (errCfg W dl)
        (init (errCfg W dl) (List.range N)) sched).dlq = 1 ∧
      ∀ p ∈ (runTasks (errCfg W dl)
        (init (errCfg W dl) (List.range N)) sched).dlq,
        p.attempt = 0 := by
  intro i hi
  have hinv := c2_runTasks W dl N hW _ sched (c2_init W dl N hW)
  obtain ⟨hld, hcore, hf3, hqp⟩ := hinv
  obtain ⟨h1, h2, h3, h4, h5, h6⟩ := hcore
  obtain ⟨hfz, htz⟩ := hq
  have hIe : inflightPkts (runTasks (errCfg W dl)
      (init (errCfg W dl) (List.range N)) sched) = [] := by
    rw [inflightPkts, hfz]
    rfl
  have hTe : timerPkts (runTasks (errCfg W dl)
      (init (errCfg W dl) (List.range N)) sched) = [] := by
    rw [timerPkts, htz]
    rfl
  have hQe : (runTasks (errCfg W dl)
      (init (errCfg W dl) (List.range N)) sched).queue = [] := by
    rcases Bool.eq_false_or_eq_true (runTasks (errCfg W dl)
        (init (errCfg W dl) (List.range N)) sched).isProcessing
      with hip | hip
    · exact absurd hfz (hf3 hip)
    · rcases hqp hip with h | h
      · exact h
      · exact absurd htz h
  have hl0 : liveCnt i (runTasks (errCfg W dl)
      (init (errCfg W dl) (List.range N)) sched) = 0 := by
    rw [liveCnt, hQe, hIe, hTe]
    rfl
  rcases h5 i hi with ⟨hl1, _, _⟩ | ⟨_, hd2, he1, hm1⟩
  · rw [hl0] at hl1
    omega
  · exact ⟨hd2, he1, hm1, fun p hp => (h4 p hp).1⟩

/-- Witness for C2 at a concrete input: one item, one worker, zero retry
delay, and the canonical schedule that dispatches, lets the retry timeout
fire, re-dispatches, exhausts the budget, and drains the final resume
timeout. -/
theorem C2_retry_deadletter_witness :
    countDispatchedId 0 (runTasks (errCfg 1 (fun _ _ => 0))
      (init (errCfg 1 (fun _ _ => 0)) (List.range 1))
      [.fiber 0, .timer 0, .fiber 0, .fiber 0, .timer 0,
        .fiber 0]).events = 2 ∧
    countErrorAt 0 (runTasks (errCfg 1 (fun _ _ => 0))
      (init (errCfg 1 (fun _ _ => 0)) (List.range 1))
      [.fiber 0, .timer 0, .fiber 0, .fiber 0, .timer 0,
        .fiber 0]).events = 1 ∧
    cntMsg 0 (runTasks (errCfg 1 (fun _ _ => 0))
      (init (errCfg 1 (fun _ _ => 0)) (List.range 1))
      [.fiber 0, .timer 0, .fiber 0, .fiber 0, .timer 0,
        .fiber 0]).dlq = 1 ∧
    ∀ p ∈ (runTasks (errCfg 1 (fun _ _ => 0))
      (init (errCfg 1 (fun _ _ => 0)) (List.range 1))
      [.fiber 0, .timer 0, .fiber 0, .fiber 0, .timer 0,
        .fiber 0]).dlq, p.attempt = 0 :=
  C2_retry_deadletter 1 (fun _ _ => 0) 1
    [.fiber 0, .timer 0, .fiber 0, .fiber 0, .timer 0, .fiber 0]
    (by decide) ⟨by decide, by decide⟩ 0 (by decide)

end QBall
